import Mathlib

/-!
# Verification of the gaze-contingent display renderer

Shallow embedding of `src/extension/src/content/gaze-display.ts` and
`src/extension/src/content/eye-tracker.ts` of the beyondbinary repository,
together with theorems settling the specification claims about the
word-highlighting renderer.

Modelling conventions:
* JavaScript numbers are modelled as rationals (`ℚ`) where the source only
  adds, multiplies, divides and compares, and as reals (`ℝ`) where the source
  takes square roots (`Math.sqrt`) or non-integer powers (`Math.pow(_, 2.4)`).
* DOM elements are identified by natural-number ids; the inline style store
  of the document is a function from ids to an `Elem` record.
* CSS property strings are modelled by the inductive `CssVal`: the empty
  string, an arbitrary pre-existing literal, or one of the structured values
  the renderer itself writes.
-/

/-- A parsed CSS color, as produced by `parseColor` (gaze-display.ts 57-67):
the three integer channel values of `rgb(r, g, b)`. -/
structure Rgb where
  r : ℕ
  g : ℕ
  b : ℕ
deriving DecidableEq, Repr

/-- An `rgba(r, g, b, a)` color literal as written by the renderer.
Channels and alpha are exact rationals. -/
structure Rgba where
  r : ℚ
  g : ℚ
  b : ℚ
  a : ℚ
deriving DecidableEq, Repr

/-- The pair of colors `contrastingHighlight` returns (gaze-display.ts 82-123):
a background and an underline color. -/
structure Highlight where
  bg : Rgba
  underline : Rgba
deriving DecidableEq, Repr

/-- `HIGHLIGHT_BG = "rgba(255, 249, 196, 0.45)"` (gaze-display.ts 27). -/
def HIGHLIGHT_BG : Rgba := ⟨255, 249, 196, 0.45⟩

/-- `HIGHLIGHT_BG_STRONG = "rgba(255, 240, 140, 0.65)"` (gaze-display.ts 28). -/
def HIGHLIGHT_BG_STRONG : Rgba := ⟨255, 240, 140, 0.65⟩

/-- `UNDERLINE_COLOR = "rgba(74, 111, 165, 0.5)"` (gaze-display.ts 29). -/
def UNDERLINE_COLOR : Rgba := ⟨74, 111, 165, 0.5⟩

/-- One linearized sRGB channel, from `luminance` (gaze-display.ts 70-76):
`c /= 255; c <= 0.03928 ? c / 12.92 : Math.pow((c + 0.055) / 1.055, 2.4)`.
The float power is modelled as real `rpow`. -/
noncomputable def srgbLin (c : ℕ) : ℝ :=
  let x : ℝ := (c : ℝ) / 255
  if x ≤ 0.03928 then x / 12.92 else ((x + 0.055) / 1.055) ^ (2.4 : ℝ)

/-- Relative luminance (WCAG), `luminance` in gaze-display.ts 70-76:
`0.2126 * rs + 0.7152 * gs + 0.0722 * bs` on linearized channels. -/
noncomputable def luminance (r g b : ℕ) : ℝ :=
  0.2126 * srgbLin r + 0.7152 * srgbLin g + 0.0722 * srgbLin b

/-- `contrastingHighlight` (gaze-display.ts 82-123).  A `none` text color
covers both the no-inline-color case and the unparseable-color case of the
source, which return the same fallback. -/
noncomputable def contrastingHighlight (textColor : Option Rgb) (strong : Bool) :
    Highlight :=
  match textColor with
  | none =>
      { bg := if strong then HIGHLIGHT_BG_STRONG else HIGHLIGHT_BG,
        underline := UNDERLINE_COLOR }
  | some c =>
      let lum := luminance c.r c.g c.b
      let alpha : ℚ := if strong then 0.28 else 0.18
      if 0.4 < lum then
        { bg := ⟨30, 40, 70, alpha⟩, underline := ⟨30, 40, 70, 0.45⟩ }
      else if 0.15 < lum then
        { bg := ⟨255, 249, 196, alpha + 0.1⟩, underline := ⟨120, 100, 30, 0.4⟩ }
      else
        { bg := ⟨255, 240, 140, alpha + 0.15⟩, underline := ⟨74, 111, 165, 0.5⟩ }

/-- The property names of `Object.prototype` in JavaScript.  The `map` of
`setIntensity` (gaze-display.ts 323) is a plain object literal, so an
index lookup that misses its own keys continues along the prototype chain
and finds these inherited, non-nullish members. -/
def objectPrototypeProps : List String :=
  ["constructor", "toString", "toLocaleString", "valueOf", "hasOwnProperty",
    "isPrototypeOf", "propertyIsEnumerable", "__proto__",
    "__defineGetter__", "__defineSetter__", "__lookupGetter__",
    "__lookupSetter__"]

/-- A runtime value that `map[intensity] ?? 1.0` can evaluate to: a number
from the literal's own entries (or the `??` fallback), or the non-nullish
member inherited from `Object.prototype` at the given key (a function, or
for the prototype accessor the prototype object itself). -/
inductive JsVal where
  | num : ℚ → JsVal
  | protoVal : String → JsVal
deriving DecidableEq, Repr

/-- `setIntensity` (gaze-display.ts 322-325): the value assigned to the
module variable `intensityMult`, i.e. `map[intensity] ?? 1.0` over the
object literal `{ low: 0.5, medium: 1.0, high: 1.5 }`.  The lookup first
consults the literal's own keys; missing those, it consults the
prototype chain, where every member of `Object.prototype` is a
non-nullish value on which `??` does not fire; only when the key is
found nowhere does the lookup yield `undefined` and `??` supply 1.0. -/
def setIntensityJs (intensity : String) : JsVal :=
  if intensity = "low" then .num 0.5
  else if intensity = "medium" then .num 1.0
  else if intensity = "high" then .num 1.5
  else if intensity ∈ objectPrototypeProps then .protoVal intensity
  else .num 1.0

/-- The numeric multiplier assigned by `setIntensity` on strings that are
not property names inherited from `Object.prototype` — the restriction of
`setIntensityJs` to the inputs where the lookup stays numeric.  The three
recognized presets, the only keys the intensity theorems of Scenario B
evaluate, are own keys of the literal and agree with `setIntensityJs`
exactly. -/
def setIntensity (intensity : String) : ℚ :=
  if intensity = "low" then 0.5
  else if intensity = "medium" then 1.0
  else if intensity = "high" then 1.5
  else 1.0

/-- `FOCUS_RADIUS = 90` (gaze-display.ts 21). -/
def FOCUS_RADIUS : ℚ := 90

/-- `TRANSITION_RADIUS = 180` (gaze-display.ts 22). -/
def TRANSITION_RADIUS : ℚ := 180

/-- `focusR = FOCUS_RADIUS * intensityMult` (gaze-display.ts 376). -/
def focusRadiusFor (m : ℚ) : ℚ := FOCUS_RADIUS * m

/-- `transR = TRANSITION_RADIUS * intensityMult` (gaze-display.ts 377). -/
def transitionRadiusFor (m : ℚ) : ℚ := TRANSITION_RADIUS * m

/-- One entry of the module's `wordCache` (gaze-display.ts 42):
`{ el; cx; cy }` with the element reference modelled by its id. -/
structure WordRegion where
  id : ℕ
  cx : ℚ
  cy : ℚ
deriving DecidableEq, Repr

/-- The squared Euclidean distance `dx*dx + dy*dy` computed in `applyFrame`
(gaze-display.ts 386-388) before the source takes `Math.sqrt`. -/
def distSq (w : WordRegion) (gx gy : ℚ) : ℚ :=
  (w.cx - gx) ^ 2 + (w.cy - gy) ^ 2

/-- The Euclidean distance `Math.sqrt(dx*dx + dy*dy)` of gaze-display.ts 388. -/
noncomputable def wordDist (w : WordRegion) (gx gy : ℚ) : ℝ :=
  Real.sqrt ((distSq w gx gy : ℚ) : ℝ)

/-- Accumulator of the classification loop in `applyFrame`
(gaze-display.ts 379-399): `closestWord`/`closestDist` (an absent closest
stands for `closestDist = Infinity`), `toHighlight` and `toTransition`.
Distances are carried squared; see `classifyGo`. -/
structure ClassifyAcc where
  closest : Option (WordRegion × ℚ)
  hi : List (WordRegion × ℚ)
  trans : List (WordRegion × ℚ)
deriving DecidableEq, Repr

/-- The `for (const w of wordCache)` loop of `applyFrame`
(gaze-display.ts 385-399).  The source computes
`dist = Math.sqrt(dx*dx + dy*dy)` and compares `dist <= focusR`,
`dist <= transR`, `dist < closestDist`; since the radii are nonnegative and
`Real.sqrt` is strictly monotone on nonnegative arguments, these comparisons
are embedded on squared distances against squared radii, which keeps the
loop computable.  The equivalence with the `Real.sqrt` form is proved in
the claim theorems.  `dist < closestDist` starts against Infinity, so an
empty `closest` always accepts. -/
def classifyGo (gx gy fR tR : ℚ) : List WordRegion → ClassifyAcc → ClassifyAcc
  | [], acc => acc
  | w :: ws, acc =>
      let d := distSq w gx gy
      if d ≤ fR ^ 2 then
        classifyGo gx gy fR tR ws
          { closest :=
              match acc.closest with
              | none => some (w, d)
              | some (w0, d0) => if d < d0 then some (w, d) else some (w0, d0),
            hi := acc.hi ++ [(w, d)],
            trans := acc.trans }
      else if d ≤ tR ^ 2 then
        classifyGo gx gy fR tR ws { acc with trans := acc.trans ++ [(w, d)] }
      else
        classifyGo gx gy fR tR ws acc

/-- Zone classification of one frame: the loop of gaze-display.ts 379-399
run over the whole cache from the initial accumulator. -/
def classifyFrame (cache : List WordRegion) (gx gy fR tR : ℚ) : ClassifyAcc :=
  classifyGo gx gy fR tR cache ⟨none, [], []⟩

/-- An inline CSS property value.  `empty` is the empty string `""`;
`lit` is an arbitrary pre-existing inline value (e.g. one the page or the
colorizer set); the remaining constructors are the structured forms of the
strings the renderer itself writes: a highlight background
(gaze-display.ts 413, 421), a transition background whose trailing alpha
was replaced by the faded value (gaze-display.ts 435; the source's
`toFixed(3)` decimal formatting of the alpha is not modelled, no claim
depends on the printed digits), and the primary word's inset box shadow
(gaze-display.ts 422). -/
inductive CssVal where
  | empty : CssVal
  | lit : String → CssVal
  | hl : Rgba → CssVal
  | hlFaded : Rgba → ℝ → CssVal
  | shadow : Rgba → CssVal

/-- The inline style slots of one element that the renderer reads or
writes: `style.background`, `style.boxShadow`, `style.color`
(gaze-display.ts 402-437).  `writable` does not exist in the source; it
makes the failure mode hypothesized by the specification (a per-element
style mutation that throws) expressible: the `Except`-based variant of the
frame algorithm fails on an element iff its `writable` is false.  The pure
frame algorithm ignores it, and every style write preserves it. -/
@[ext]
structure Elem where
  background : CssVal
  boxShadow : CssVal
  color : Option Rgb
  writable : Bool

/-- The document's inline-style store: element id to its style record. -/
abbrev Dom : Type := ℕ → Elem

/-- Write `el.style.background = v` on element `i`. -/
def setBg (d : Dom) (i : ℕ) (v : CssVal) : Dom :=
  Function.update d i { d i with background := v }

/-- Write `el.style.boxShadow = v` on element `i`. -/
def setShadow (d : Dom) (i : ℕ) (v : CssVal) : Dom :=
  Function.update d i { d i with boxShadow := v }

/-- `el.style.background = v` as a fallible operation: fails exactly on an
element whose hypothesized mutation failure flag is set (see `Elem`). -/
def setBgE (d : Dom) (i : ℕ) (v : CssVal) : Except Unit Dom :=
  if (d i).writable then .ok (setBg d i v) else .error ()

/-- `el.style.boxShadow = v` as a fallible operation. -/
def setShadowE (d : Dom) (i : ℕ) (v : CssVal) : Except Unit Dom :=
  if (d i).writable then .ok (setShadow d i v) else .error ()

/-- The clearing loop of gaze-display.ts 402-405 and 477-480
(`el.style.background = ""; el.style.boxShadow = ""` for every tracked
element).  The source iterates a `Set`; each iteration only mutates its own
element, so the effect is the pointwise map below, independent of order. -/
def clearIds (d : Dom) (s : Finset ℕ) : Dom :=
  fun i =>
    if i ∈ s then { d i with background := .empty, boxShadow := .empty }
    else d i

/-- The browser's animation-frame queue as seen by this module: a counter of
request ids and the list of pending `(id, sample)` callbacks in request
order.  `requestAnimationFrame` appends a fresh id; `cancelAnimationFrame`
removes the entry with the given id (a no-op for an id that already fired). -/
structure RafState where
  nextId : ℕ
  queue : List (ℕ × ℚ × ℚ)
deriving DecidableEq, Repr

/-- `cancelAnimationFrame(id)`. -/
def rafCancel (r : RafState) (id : ℕ) : RafState :=
  { r with queue := r.queue.filter (fun p => p.1 ≠ id) }

/-- `requestAnimationFrame(() => applyFrame(x, y))`: returns the fresh id
and the new queue. -/
def rafRequest (r : RafState) (x y : ℚ) : ℕ × RafState :=
  (r.nextId, { nextId := r.nextId + 1, queue := r.queue ++ [(r.nextId, x, y)] })

/-- The module-scope mutable state of gaze-display.ts (lines 32-49, 446)
together with the animation-frame queue it schedules into: `isActive`,
the focus dot's opacity and position, whether the cursor-hiding style
element is in the head, `cacheValid`, `animFrame`, the dimming overlay's
presence, the inline styles of the document, `highlightedWords` and
`primaryWord`.  `intensityMult` and `wordCache` are passed explicitly to
the functions that read them. -/
@[ext]
structure GazeDisplayState where
  isActive : Bool
  dotOpacity : ℚ
  dotPos : ℚ × ℚ
  cursorStyleInHead : Bool
  cacheValid : Bool
  raf : RafState
  animFrame : Option ℕ
  dimOverlay : Bool
  dom : Dom
  highlightedWords : Finset ℕ
  primaryWord : Option ℕ

/-- The background the focus-zone loop writes for one word
(gaze-display.ts 410-413): the normal contrasting highlight for the
element's current inline text color. -/
noncomputable def hiVal : Dom → WordRegion × ℚ → CssVal :=
  fun d e => .hl (contrastingHighlight (d e.1.id).color false).bg

/-- The background the transition-zone loop writes for one word
(gaze-display.ts 427-436): the normal contrasting highlight with its alpha
scaled by `1 - t` where `t = (dist - focusR) / (transR - focusR)` and
`dist` is the word's Euclidean distance (its squared value is carried in
the classified entry). -/
noncomputable def transVal (fR tR : ℚ) : Dom → WordRegion × ℚ → CssVal :=
  fun d e =>
    let t : ℝ := (Real.sqrt ((e.2 : ℚ) : ℝ) - (fR : ℝ)) / ((tR : ℝ) - (fR : ℝ))
    let bg := (contrastingHighlight (d e.1.id).color false).bg
    .hlFaded bg (((bg.a : ℚ) : ℝ) * (1 - t))

/-- One iteration of a highlight-writing loop (gaze-display.ts 410-415,
427-438): write the background `v` computes from the current store, and
add the element to `highlightedWords`. -/
def bgWriteStep (v : Dom → WordRegion × ℚ → CssVal)
    (p : Dom × Finset ℕ) (e : WordRegion × ℚ) : Dom × Finset ℕ :=
  (setBg p.1 e.1.id (v p.1 e), insert e.1.id p.2)

/-- One iteration of a highlight-writing loop with a fallible write. -/
def bgWriteStepE (v : Dom → WordRegion × ℚ → CssVal)
    (p : Dom × Finset ℕ) (e : WordRegion × ℚ) :
    Except Unit (Dom × Finset ℕ) :=
  (setBgE p.1 e.1.id (v p.1 e)).map fun d1 => (d1, insert e.1.id p.2)

/-- Steps 5-7 of `applyFrame` (gaze-display.ts 409-438) applied to the
style store after the clearing step: highlight every focus-zone word with
the normal contrasting background, give the closest word the strong
background plus the inset underline shadow, and give every transition word
the contrasting background with faded alpha.  Each loop reads the
element's current inline `style.color` and inserts the element into
`highlightedWords` (the closest word was already pushed to `toHighlight`
and so is already tracked, matching the source). -/
noncomputable def applyStyles (c : ClassifyAcc) (fR tR : ℚ) (d : Dom) :
    Dom × Finset ℕ × Option ℕ :=
  let step5 := c.hi.foldl (bgWriteStep hiVal) (d, ∅)
  let step6 :=
    match c.closest with
    | none => (step5.1, none)
    | some (w, _) =>
        let h := contrastingHighlight (step5.1 w.id).color true
        (setShadow (setBg step5.1 w.id (.hl h.bg)) w.id (.shadow h.underline),
          some w.id)
  let step7 := c.trans.foldl (bgWriteStep (transVal fR tR)) (step6.1, step5.2)
  (step7.1, step7.2, step6.2)

/-- `applyFrame` (gaze-display.ts 365-442) as a transformer of the module
state: move the focus dot, classify the cache, clear the previous frame's
highlights, apply the new highlight styles, and repaint the dimming
overlay (whose gradient string carries no information any claim uses, so
only its presence is tracked).  The cache argument stands for the module's
`wordCache` after the step-2 staleness check; `m` is `intensityMult`. -/
noncomputable def applyFrame (cache : List WordRegion) (gx gy m : ℚ)
    (st : GazeDisplayState) : GazeDisplayState :=
  let fR := focusRadiusFor m
  let tR := transitionRadiusFor m
  let c := classifyFrame cache gx gy fR tR
  let cleared := clearIds st.dom st.highlightedWords
  let out := applyStyles c fR tR cleared
  { st with
    dotPos := (gx, gy),
    dom := out.1,
    highlightedWords := out.2.1,
    primaryWord := out.2.2,
    dimOverlay := true }

/-- `startGazeDisplay` (gaze-display.ts 303-308). -/
def startGazeDisplay (st : GazeDisplayState) : GazeDisplayState :=
  { st with
    isActive := true,
    dotOpacity := 1,
    cursorStyleInHead := true,
    cacheValid := false }

/-- `stopGazeDisplay` (gaze-display.ts 310-320): deactivate, hide the dot,
remove the cursor-hiding style, clear all highlights (`clearHighlights`,
gaze-display.ts 476-483), remove the dimming overlay (`clearDimming`), and
cancel a pending animation frame. -/
def stopGazeDisplay (st : GazeDisplayState) : GazeDisplayState :=
  { st with
    isActive := false,
    dotOpacity := 0,
    cursorStyleInHead := false,
    dom := clearIds st.dom st.highlightedWords,
    highlightedWords := ∅,
    primaryWord := none,
    dimOverlay := false,
    raf := match st.animFrame with
           | none => st.raf
           | some id => rafCancel st.raf id,
    animFrame := none }

/-- `updateGaze` (gaze-display.ts 330-334): when active, cancel the pending
frame callback if any and schedule a new one carrying this sample. -/
def updateGaze (st : GazeDisplayState) (x y : ℚ) : GazeDisplayState :=
  if st.isActive = false then st
  else
    let r1 := match st.animFrame with
              | none => st.raf
              | some id => rafCancel st.raf id
    let idr := rafRequest r1 x y
    { st with raf := idr.2, animFrame := some idr.1 }

/-- The samples whose `applyFrame` callbacks will run at the next repaint:
the pending animation-frame queue in order. -/
def pendingSamples (st : GazeDisplayState) : List (ℚ × ℚ) :=
  st.raf.queue.map (fun p => p.2)

/-- A repaint opportunity: the browser drains the callback queue and runs
each scheduled `() => applyFrame(x, y)` in request order. -/
noncomputable def repaint (cache : List WordRegion) (m : ℚ)
    (st : GazeDisplayState) : GazeDisplayState :=
  st.raf.queue.foldl (fun s p => applyFrame cache p.2.1 p.2.2 m s)
    { st with raf := { st.raf with queue := [] } }

/-- The module-scope state of eye-tracker.ts (lines 13-15): whether the
callback was registered (`gazeCallback`), whether the mousemove listener is
attached (`mouseMoveHandler` added to window), and `isTracking`. -/
structure TrackerState where
  callbackSet : Bool
  handlerAttached : Bool
  isTracking : Bool
deriving DecidableEq, Repr

/-- `initCursorTracker` (eye-tracker.ts 22-24). -/
def initCursorTracker (t : TrackerState) : TrackerState :=
  { t with callbackSet := true }

/-- `startTracking` (eye-tracker.ts 29-38): a no-op while already tracking,
otherwise attach the mousemove listener. -/
def startTracking (t : TrackerState) : TrackerState :=
  if t.isTracking then t
  else { t with isTracking := true, handlerAttached := true }

/-- `stopTracking` (eye-tracker.ts 43-51): a no-op while not tracking,
otherwise remove the mousemove listener. -/
def stopTracking (t : TrackerState) : TrackerState :=
  if t.isTracking = false then t
  else { t with isTracking := false, handlerAttached := false }

/-- Whether a mousemove event delivered now invokes the gaze callback:
the listener must be attached and `gazeCallback?.` non-null
(eye-tracker.ts 33-37). -/
def mouseMoveFires (t : TrackerState) : Bool :=
  t.handlerAttached && t.callbackSet

/-- A bounding rectangle in viewport coordinates
(`getBoundingClientRect`): left, top, width, height. -/
structure Rect where
  left : ℚ
  top : ℚ
  width : ℚ
  height : ℚ
deriving DecidableEq, Repr

/-- `r.left + r.width / 2`, the cached `cx` (gaze-display.ts 155). -/
def Rect.cx (r : Rect) : ℚ := r.left + r.width / 2

/-- `r.top + r.height / 2`, the cached `cy` (gaze-display.ts 156). -/
def Rect.cy (r : Rect) : ℚ := r.top + r.height / 2

/-- `r.bottom` of a client rect: `top + height`. -/
def Rect.bottom (r : Rect) : ℚ := r.top + r.height

/-- The visibility filter applied to every cache candidate
(gaze-display.ts 147-152, 169-174, 248-253): nonzero rendered size and
within 200px of the viewport band of height `innerHeight`. -/
def visibleBand (r : Rect) (innerHeight : ℚ) : Bool :=
  0 < r.width && 0 < r.height && -200 ≤ r.bottom && r.top ≤ innerHeight + 200

/-- A node of the flattened document, in document order.  `coloredN` is a
`span.wit-colored` element of the colorizer, `wordN` a `span.wit-word`
wrapper, `textN` a raw text node.  Text is carried as `List Char`.  A text
node records the data the tree walker reads through its parent: the
parent's bounding rect, whether an ancestor matches the exclusion selector
of gaze-display.ts 193-199 (`excluded`), and the layout oracle `wrapRects`:
the bounding rects that wrapper spans created from this node's
non-whitespace runs will receive, in run order (the geometry is the
browser's to choose; it is an input of the model). -/
inductive DNode where
  | coloredN : ℕ → List Char → Rect → DNode
  | wordN : ℕ → List Char → Rect → DNode
  | textN : List Char → Rect → Bool → List Rect → DNode
deriving DecidableEq, Repr

/-- The text content of one node. -/
def DNode.text : DNode → List Char
  | .coloredN _ t _ => t
  | .wordN _ t _ => t
  | .textN t _ _ _ => t

/-- `document.textContent`: concatenation of the nodes' text in order. -/
def textContent (doc : List DNode) : List Char :=
  doc.foldr (fun n acc => n.text ++ acc) []

/-- Maximal runs of whitespace and non-whitespace characters: the token
list of `text.match(/\S+|\s+/g)` (gaze-display.ts 217).  The regex's two
alternatives partition the characters by `\s`-ness into maximal runs, which
is the grouping below. -/
def chunkRuns : List Char → List (List Char)
  | [] => []
  | c :: cs =>
      match chunkRuns cs with
      | [] => [[c]]
      | [] :: rs => [c] :: [] :: rs
      | (d :: r) :: rs =>
          if c.isWhitespace = d.isWhitespace then (c :: d :: r) :: rs
          else [c] :: (d :: r) :: rs

/-- `/^\s+$/.test(part)` (gaze-display.ts 233). -/
def wsRun (p : List Char) : Bool := !p.isEmpty && p.all Char.isWhitespace

/-- `text.trim()` is nonempty: some character is not whitespace
(the truthiness test of gaze-display.ts 202 and 219). -/
def trimNonempty (t : List Char) : Bool := t.any (fun c => !c.isWhitespace)

/-- The tree walker's `acceptNode` (gaze-display.ts 190-208) for a node of
the flattened document: only raw text nodes are walked; reject when an
ancestor matches the exclusion selector, when the text trims to empty, when
the parent's rect has zero width or height, or when the parent lies more
than 200px outside the viewport band. -/
def eligibleText (innerHeight : ℚ) : DNode → Bool
  | .textN t pr ex _ =>
      !ex && trimNonempty t && !(pr.width = 0 || pr.height = 0) &&
        !(pr.bottom < -200 || innerHeight + 200 < pr.top)
  | _ => false

/-- Build the document fragment of gaze-display.ts 231-241 for the token
list of one text node: whitespace runs stay text nodes, non-whitespace runs
become `span.wit-word` wrappers with fresh ids, taking their rects from the
layout oracle in run order.  Returns the fragment and the next fresh id. -/
def buildFrag (pr : Rect) (ex : Bool) :
    List (List Char) → List Rect → ℕ → List DNode × ℕ
  | [], _, nid => ([], nid)
  | p :: ps, rects, nid =>
      if wsRun p then
        let rest := buildFrag pr ex ps rects nid
        (.textN p pr ex [] :: rest.1, rest.2)
      else
        let r := rects.headD ⟨0, 0, 0, 0⟩
        let rest := buildFrag pr ex ps rects.tail (nid + 1)
        (.wordN nid p r :: rest.1, rest.2)

/-- The body of the `for (const tn of textNodes)` wrapping loop
(gaze-display.ts 215-243) on one node: an eligible text node whose token
list has at most one part is replaced (when it trims nonempty) by a single
wrapper span, which is pushed to the cache immediately when its rect has
nonzero size (gaze-display.ts 224-227, with no viewport-band test); an
eligible text node with several parts is replaced by the fragment, with no
immediate push.  Every other node is left untouched.  Returns the
replacement nodes, the immediate cache pushes, and the next fresh id. -/
def wrapNode (innerHeight : ℚ) (n : DNode) (nid : ℕ) :
    List DNode × List WordRegion × ℕ :=
  if eligibleText innerHeight n then
    match n with
    | .textN t pr ex rects =>
        let parts := chunkRuns t
        if parts.length ≤ 1 then
          if trimNonempty t then
            let r := rects.headD ⟨0, 0, 0, 0⟩
            ([.wordN nid t r],
              if 0 < r.width && 0 < r.height then [⟨nid, r.cx, r.cy⟩] else [],
              nid + 1)
          else ([n], [], nid)
        else
          let frag := buildFrag pr ex parts rects nid
          (frag.1, [], frag.2)
    | _ => ([n], [], nid)
  else ([n], [], nid)

/-- The whole wrapping pass (gaze-display.ts 211-243): wrap each text node
in document order, concatenating the replacement fragments and the
immediate cache pushes. -/
def wrapDoc (innerHeight : ℚ) : List DNode → ℕ →
    List DNode × List WordRegion × ℕ
  | [], nid => ([], [], nid)
  | n :: rest, nid =>
      let w := wrapNode innerHeight n nid
      let r := wrapDoc innerHeight rest w.2.2
      (w.1 ++ r.1, w.2.1 ++ r.2.1, r.2.2)

/-- The cache entries collected from the document's `span.wit-colored`
elements with the visibility filter (gaze-display.ts 143-159). -/
def sweepColored (innerHeight : ℚ) (doc : List DNode) : List WordRegion :=
  doc.filterMap fun n =>
    match n with
    | .coloredN i _ r =>
        if visibleBand r innerHeight then some ⟨i, r.cx, r.cy⟩ else none
    | _ => none

/-- The cache entries collected from the document's `span.wit-word`
elements with the visibility filter (gaze-display.ts 165-181 and 245-256). -/
def sweepWords (innerHeight : ℚ) (doc : List DNode) : List WordRegion :=
  doc.filterMap fun n =>
    match n with
    | .wordN i _ r =>
        if visibleBand r innerHeight then some ⟨i, r.cx, r.cy⟩ else none
    | _ => none

/-- Whether any `span.wit-colored` exists (`colored.length > 0`). -/
def hasColoredSpan (doc : List DNode) : Bool :=
  doc.any fun n => match n with | .coloredN _ _ _ => true | _ => false

/-- Whether any `span.wit-word` exists (`existing.length > 0`). -/
def hasWordSpan (doc : List DNode) : Bool :=
  doc.any fun n => match n with | .wordN _ _ _ => true | _ => false

/-- `rebuildWordCache` (gaze-display.ts 139-258): prefer the colorizer's
`span.wit-colored` elements; else reuse surviving `span.wit-word` elements
when at least one passes the filter; else run the synthetic wrapping pass
and then collect every `span.wit-word` of the mutated document (the pushes
made during the wrapping loop come first, in source order).  Returns the
new cache, the possibly mutated document, and the next fresh id. -/
def rebuildWordCache (innerHeight : ℚ) (doc : List DNode) (nid : ℕ) :
    List WordRegion × List DNode × ℕ :=
  if hasColoredSpan doc then (sweepColored innerHeight doc, doc, nid)
  else if hasWordSpan doc && !(sweepWords innerHeight doc).isEmpty then
    (sweepWords innerHeight doc, doc, nid)
  else
    let w := wrapDoc innerHeight doc nid
    (w.2.1 ++ sweepWords innerHeight w.1, w.1, w.2.2)

/-- The unwrapping loop of `destroyGazeDisplay` (gaze-display.ts 348-352):
every `span.wit-word` is replaced by a plain text node carrying its text;
`span.wit-colored` elements and raw text nodes are untouched. -/
def unwrapWords (doc : List DNode) : List DNode :=
  doc.map fun n =>
    match n with
    | .wordN _ t _ => .textN t ⟨0, 0, 0, 0⟩ false []
    | other => other

/-- `document.body.normalize()` (gaze-display.ts 353): merge every run of
adjacent text nodes into one text node. -/
def normalizeNodes : List DNode → List DNode
  | [] => []
  | .textN t1 pr ex wr :: rest =>
      match normalizeNodes rest with
      | .textN t2 _ _ _ :: rest2 => .textN (t1 ++ t2) pr ex wr :: rest2
      | r => .textN t1 pr ex wr :: r
  | n :: rest => n :: normalizeNodes rest

/-- The `span.wit-colored` elements of the document, in order. -/
def coloredOf (doc : List DNode) : List DNode :=
  doc.filter fun n => match n with | .coloredN _ _ _ => true | _ => false

/-- The clearing loop of gaze-display.ts 402-405 with fallible writes: it
fails when some tracked element's mutation fails, and otherwise performs
the pointwise clear.  (Which element's failure surfaces depends on the
`Set`'s iteration order; the error carries no data, so the pointwise form
is order-independent.) -/
def clearIdsE (d : Dom) (s : Finset ℕ) : Except Unit Dom :=
  if ∀ i ∈ s, (d i).writable = true then .ok (clearIds d s) else .error ()

/-- Steps 5-7 of `applyFrame` with fallible style writes, sequenced exactly
as the source's loops: the source contains no try/catch, so the first
failure propagates and abandons the rest of the frame. -/
noncomputable def applyStylesE (c : ClassifyAcc) (fR tR : ℚ) (d : Dom) :
    Except Unit (Dom × Finset ℕ × Option ℕ) := do
  let step5 ← c.hi.foldlM (bgWriteStepE hiVal) (d, ∅)
  let step6 ←
    match c.closest with
    | none => pure (step5.1, (none : Option ℕ))
    | some wd => do
        let h := contrastingHighlight (step5.1 wd.1.id).color true
        let d1 ← setBgE step5.1 wd.1.id (.hl h.bg)
        let d2 ← setShadowE d1 wd.1.id (.shadow h.underline)
        pure (d2, some wd.1.id)
  let step7 ← c.trans.foldlM (bgWriteStepE (transVal fR tR)) (step6.1, step5.2)
  pure (step7.1, step7.2, step6.2)

/-- `applyFrame` with fallible per-element style writes, mirroring
gaze-display.ts 365-442 statement for statement.  There is no exception
handling anywhere in the source function, so any failing write makes the
whole frame fail. -/
noncomputable def applyFrameE (cache : List WordRegion) (gx gy m : ℚ)
    (st : GazeDisplayState) : Except Unit GazeDisplayState := do
  let fR := focusRadiusFor m
  let tR := transitionRadiusFor m
  let c := classifyFrame cache gx gy fR tR
  let cleared ← clearIdsE st.dom st.highlightedWords
  let out ← applyStylesE c fR tR cleared
  pure { st with
          dotPos := (gx, gy),
          dom := out.1,
          highlightedWords := out.2.1,
          primaryWord := out.2.2,
          dimOverlay := true }

/-- Helper: clearing with an empty tracked set is the identity. -/
theorem clearIds_empty (d : Dom) : clearIds d ∅ = d := by
  funext i
  simp [clearIds]

/-- Counterexample to C10 as stated: "toString" lies outside the
recognized set {"low", "medium", "high"}, but the object lookup finds the
inherited `Object.prototype.toString`, which is non-nullish, so `??` does
not fire and the inherited value — not 1.0 — is assigned to the
multiplier. -/
theorem setIntensityJs_inherited_key :
    setIntensityJs "toString" = JsVal.protoVal "toString" ∧
    setIntensityJs "toString" ≠ JsVal.num 1 ∧
    ("toString" : String) ≠ "low" ∧ ("toString" : String) ≠ "medium" ∧
    ("toString" : String) ≠ "high" := by
  decide

/-- C10 (amended): for every input string outside {"low", "medium",
"high"} that is not a property name inherited from `Object.prototype`,
`setIntensity` does not fail and sets the intensity multiplier to 1.0
(the medium preset), and on those inputs the full lookup agrees with the
numeric restriction `setIntensity`; for an inherited property name the
lookup yields the inherited non-nullish value, which is assigned instead
of 1.0 (see the counterexample). -/
theorem setIntensityJs_unrecognized_is_medium (s : String)
    (h1 : s ≠ "low") (h2 : s ≠ "medium") (h3 : s ≠ "high")
    (h4 : s ∉ objectPrototypeProps) :
    setIntensityJs s = JsVal.num 1 ∧
    setIntensityJs s = setIntensityJs "medium" ∧
    setIntensityJs s = JsVal.num (setIntensity s) := by
  have hv : setIntensityJs s = JsVal.num 1 := by
    simp only [setIntensityJs, if_neg h1, if_neg h2, if_neg h3, if_neg h4,
      JsVal.num.injEq]
    norm_num
  have hm : setIntensityJs "medium" = JsVal.num 1 := by
    norm_num +decide [setIntensityJs]
  have hs : setIntensity s = 1 := by
    simp only [setIntensity, if_neg h1, if_neg h2, if_neg h3]
    norm_num
  exact ⟨hv, by rw [hv, hm], by rw [hv, hs]⟩

/-- Witness for C10 (amended) at the empty string, which is neither a
recognized preset nor an inherited property name. -/
theorem setIntensityJs_unrecognized_is_medium_witness :
    setIntensityJs "" = JsVal.num 1 :=
  (setIntensityJs_unrecognized_is_medium "" (by decide) (by decide)
    (by decide) (by decide)).1

/-- C9: `start()` twice equals `start()` once, `stop()` on a stopped
component is a no-op (and, being a total function, does not throw), after
`stop()` the position source fires no further sample callbacks and the
renderer schedules no further frames, and a subsequent `start()` restarts
both components. -/
theorem start_stop_idempotent_and_silent :
    (∀ t : TrackerState, startTracking (startTracking t) = startTracking t) ∧
    (∀ t : TrackerState, stopTracking (stopTracking t) = stopTracking t) ∧
    (∀ t : TrackerState, (t.handlerAttached = true → t.isTracking = true) →
      mouseMoveFires (stopTracking t) = false) ∧
    (∀ t : TrackerState, (startTracking (stopTracking t)).isTracking = true ∧
      (startTracking (stopTracking t)).handlerAttached = true) ∧
    (∀ st : GazeDisplayState,
      startGazeDisplay (startGazeDisplay st) = startGazeDisplay st) ∧
    (∀ st : GazeDisplayState,
      stopGazeDisplay (stopGazeDisplay st) = stopGazeDisplay st) ∧
    (∀ (st : GazeDisplayState) (x y : ℚ),
      updateGaze (stopGazeDisplay st) x y = stopGazeDisplay st) ∧
    (∀ st : GazeDisplayState,
      (startGazeDisplay (stopGazeDisplay st)).isActive = true) := by
  refine ⟨?_, ?_, ?_, ?_, ?_, ?_, ?_, ?_⟩
  · intro t
    by_cases h : t.isTracking <;> simp [startTracking, h]
  · intro t
    by_cases h : t.isTracking <;> simp [stopTracking, h]
  · intro t himp
    by_cases h : t.isTracking
    · simp [stopTracking, h, mouseMoveFires]
    · have ha : t.handlerAttached = false := by
        by_cases hb : t.handlerAttached
        · exact absurd (himp hb) h
        · simpa using hb
      simp [stopTracking, h, mouseMoveFires, ha]
  · intro t
    by_cases h : t.isTracking <;>
      simp [stopTracking, startTracking, h]
  · intro st
    simp [startGazeDisplay]
  · intro st
    simp [stopGazeDisplay, clearIds_empty]
  · intro st x y
    simp [updateGaze, stopGazeDisplay]
  · intro st
    simp [startGazeDisplay]

/-- Witness for C9 at a concrete running tracker state. -/
theorem start_stop_idempotent_and_silent_witness :
    mouseMoveFires (stopTracking ⟨true, true, true⟩) = false :=
  start_stop_idempotent_and_silent.2.2.1 ⟨true, true, true⟩ (fun _ => rfl)

/-- The Scenario B layout: three word regions with centers (100,100),
(150,100), (400,400). -/
def scenarioCache : List WordRegion := [⟨1, 100, 100⟩, ⟨2, 150, 100⟩, ⟨3, 400, 400⟩]

/-- Counterexample to C6 as stated: at low intensity (focusRadius = 45)
with the sample at (120,100), span 2 at distance 30 is classified focus
(30 ≤ 45), not transition as the claim asserts. -/
theorem scenarioB_span2_is_focus_not_transition :
    ((⟨2, 150, 100⟩ : WordRegion), (900 : ℚ)) ∈
      (classifyFrame scenarioCache 120 100 (focusRadiusFor (setIntensity "low"))
        (transitionRadiusFor (setIntensity "low"))).hi ∧
    (∀ p ∈ (classifyFrame scenarioCache 120 100
        (focusRadiusFor (setIntensity "low"))
        (transitionRadiusFor (setIntensity "low"))).trans,
      p.1 ≠ (⟨2, 150, 100⟩ : WordRegion)) := by
  norm_num [scenarioCache, classifyFrame, classifyGo, distSq, setIntensity,
    focusRadiusFor, transitionRadiusFor, FOCUS_RADIUS, TRANSITION_RADIUS]

/-- C6 (amended): `focusRadius = BASE_FOCUS_RADIUS * intensity` and
`transitionRadius = BASE_TRANSITION_RADIUS * intensity` with presets
low = 0.5, medium = 1.0, high = 1.5 and BASE_TRANSITION_RADIUS (180) >
BASE_FOCUS_RADIUS (90); at low intensity focusRadius = 45 and
transitionRadius = 90, and in the Scenario B layout with sample (120,100)
span 1 at distance 20 is focus and primary while span 2 at distance 30 is
ALSO focus (30 ≤ 45), not transition; span 3 receives no zone. -/
theorem intensity_scales_radii :
    (∀ m : ℚ, focusRadiusFor m = FOCUS_RADIUS * m ∧
      transitionRadiusFor m = TRANSITION_RADIUS * m) ∧
    setIntensity "low" = 1 / 2 ∧ setIntensity "medium" = 1 ∧
    setIntensity "high" = 3 / 2 ∧ FOCUS_RADIUS < TRANSITION_RADIUS ∧
    focusRadiusFor (setIntensity "low") = 45 ∧
    transitionRadiusFor (setIntensity "low") = 90 ∧
    ((classifyFrame scenarioCache 120 100 (focusRadiusFor (setIntensity "low"))
        (transitionRadiusFor (setIntensity "low"))).closest =
      some (⟨1, 100, 100⟩, 400) ∧
    ((⟨1, 100, 100⟩ : WordRegion), (400 : ℚ)) ∈
      (classifyFrame scenarioCache 120 100 (focusRadiusFor (setIntensity "low"))
        (transitionRadiusFor (setIntensity "low"))).hi ∧
    (∀ p ∈ (classifyFrame scenarioCache 120 100
        (focusRadiusFor (setIntensity "low"))
        (transitionRadiusFor (setIntensity "low"))).hi,
      p.1 ≠ (⟨3, 400, 400⟩ : WordRegion)) ∧
    (∀ p ∈ (classifyFrame scenarioCache 120 100
        (focusRadiusFor (setIntensity "low"))
        (transitionRadiusFor (setIntensity "low"))).trans,
      p.1 ≠ (⟨3, 400, 400⟩ : WordRegion))) := by
  refine ⟨fun m => ⟨rfl, rfl⟩, ?_⟩
  norm_num +decide [scenarioCache, classifyFrame, classifyGo, distSq,
    setIntensity, focusRadiusFor, transitionRadiusFor, FOCUS_RADIUS,
    TRANSITION_RADIUS]

/-- Helper: one `updateGaze` call on an active state with at most one
pending callback leaves exactly one pending callback, which carries this
sample and whose id is the stored `animFrame`. -/
theorem updateGaze_pending (st : GazeDisplayState) (x y : ℚ)
    (hAct : st.isActive = true)
    (hQ : st.raf.queue = [] ∨
      ∃ id s, st.animFrame = some id ∧ st.raf.queue = [(id, s)]) :
    (updateGaze st x y).isActive = true ∧
    ∃ id, (updateGaze st x y).animFrame = some id ∧
      (updateGaze st x y).raf.queue = [(id, x, y)] := by
  cases hA : st.animFrame with
  | none =>
      rcases hQ with hQ | ⟨id, s, hid, hq⟩
      · refine ⟨by simp [updateGaze, hAct], ?_⟩
        refine ⟨st.raf.nextId, ?_, ?_⟩ <;>
          simp [updateGaze, hAct, hA, rafRequest, hQ]
      · rw [hA] at hid
        exact absurd hid (by simp)
  | some id0 =>
      rcases hQ with hQ | ⟨id, s, hid, hq⟩
      · refine ⟨by simp [updateGaze, hAct], ?_⟩
        refine ⟨(rafCancel st.raf id0).nextId, ?_, ?_⟩ <;>
          simp [updateGaze, hAct, hA, rafRequest, rafCancel, hQ]
      · rw [hA] at hid
        injection hid with hid
        refine ⟨by simp [updateGaze, hAct], ?_⟩
        refine ⟨(rafCancel st.raf id0).nextId, ?_, ?_⟩ <;>
          simp [updateGaze, hAct, hA, rafRequest, rafCancel, hq, hid]

/-- Helper: folding any sample list through `updateGaze` from an active
state with at most one pending callback keeps at most one pending
callback, and when the list is nonempty the single pending callback
carries the last sample. -/
theorem foldGaze_inv (samples : List (ℚ × ℚ)) (st : GazeDisplayState)
    (hAct : st.isActive = true)
    (hQ : st.raf.queue = [] ∨
      ∃ id s, st.animFrame = some id ∧ st.raf.queue = [(id, s)]) :
    ((samples.foldl (fun s p => updateGaze s p.1 p.2) st).isActive = true ∧
      ((samples.foldl (fun s p => updateGaze s p.1 p.2) st).raf.queue = [] ∨
        ∃ id s,
          (samples.foldl (fun s p => updateGaze s p.1 p.2) st).animFrame =
            some id ∧
          (samples.foldl (fun s p => updateGaze s p.1 p.2) st).raf.queue =
            [(id, s)])) ∧
    ∀ h : samples ≠ [],
      ∃ id,
        (samples.foldl (fun s p => updateGaze s p.1 p.2) st).animFrame =
          some id ∧
        (samples.foldl (fun s p => updateGaze s p.1 p.2) st).raf.queue =
          [(id, samples.getLast h)] := by
  induction samples generalizing st with
  | nil =>
      exact ⟨⟨hAct, hQ⟩, fun h => absurd rfl h⟩
  | cons p ps ih =>
      have hp := updateGaze_pending st p.1 p.2 hAct hQ
      obtain ⟨hAct1, id1, hid1, hq1⟩ := hp
      have hQ1 : (updateGaze st p.1 p.2).raf.queue = [] ∨
          ∃ id s, (updateGaze st p.1 p.2).animFrame = some id ∧
            (updateGaze st p.1 p.2).raf.queue = [(id, s)] :=
        Or.inr ⟨id1, (p.1, p.2), hid1, hq1⟩
      have ihr := ih (updateGaze st p.1 p.2) hAct1 hQ1
      refine ⟨by simpa using ihr.1, ?_⟩
      intro h
      cases ps with
      | nil =>
          refine ⟨id1, by simpa using hid1, ?_⟩
          simpa using hq1
      | cons q qs =>
          have h2 : q :: qs ≠ [] := List.cons_ne_nil q qs
          obtain ⟨id, ha, hb⟩ := ihr.2 h2
          refine ⟨id, by simpa using ha, ?_⟩
          have : (p :: q :: qs).getLast h = (q :: qs).getLast h2 :=
            List.getLast_cons h2
          rw [this]
          simpa using hb

/-- C4: for every sequence of N ≥ 1 samples delivered to `updateGaze`
strictly between two consecutive repaint opportunities while the renderer
is active, exactly one classification pass (`applyFrame`) executes at the
next repaint and it uses only the last of the N samples; earlier pending
samples are discarded rather than queued, so at most one frame callback is
ever pending. -/
theorem updateGaze_coalesces (cache : List WordRegion) (m : ℚ)
    (samples : List (ℚ × ℚ)) (st : GazeDisplayState)
    (hAct : st.isActive = true) (hQ : st.raf.queue = [])
    (hNe : samples ≠ []) :
    pendingSamples (samples.foldl (fun s p => updateGaze s p.1 p.2) st) =
      [samples.getLast hNe] ∧
    (∀ k : ℕ,
      ((samples.take k).foldl (fun s p => updateGaze s p.1 p.2)
        st).raf.queue.length ≤ 1) ∧
    repaint cache m (samples.foldl (fun s p => updateGaze s p.1 p.2) st) =
      applyFrame cache (samples.getLast hNe).1 (samples.getLast hNe).2 m
        { samples.foldl (fun s p => updateGaze s p.1 p.2) st with
          raf := { (samples.foldl (fun s p => updateGaze s p.1 p.2) st).raf
                   with queue := [] } } := by
  obtain ⟨id, -, hqlast⟩ :=
    (foldGaze_inv samples st hAct (Or.inl hQ)).2 hNe
  refine ⟨?_, ?_, ?_⟩
  · simp [pendingSamples, hqlast]
  · intro k
    rcases (foldGaze_inv (samples.take k) st hAct (Or.inl hQ)).1.2 with
      hq | ⟨_, _, _, hq⟩ <;> simp [hq]
  · rw [repaint, hqlast]
    rfl

/-- Witness for C4: two samples delivered back to back result in one
pending classification pass carrying the second sample. -/
theorem updateGaze_coalesces_witness :
    pendingSamples
      ([((1 : ℚ), (2 : ℚ)), ((3 : ℚ), (4 : ℚ))].foldl
        (fun s p => updateGaze s p.1 p.2)
        ⟨true, 1, (0, 0), true, true, ⟨0, []⟩, none, false,
          fun _ => ⟨.empty, .empty, none, true⟩, ∅, none⟩) =
      [((3 : ℚ), (4 : ℚ))] :=
  (updateGaze_coalesces [] 1 [((1 : ℚ), (2 : ℚ)), ((3 : ℚ), (4 : ℚ))]
    ⟨true, 1, (0, 0), true, true, ⟨0, []⟩, none, false,
      fun _ => ⟨.empty, .empty, none, true⟩, ∅, none⟩
    rfl rfl (by simp)).1

/-- Helper: a linearized sRGB channel is nonnegative. -/
theorem srgbLin_nonneg (c : ℕ) : 0 ≤ srgbLin c := by
  unfold srgbLin
  dsimp only
  split
  · positivity
  · positivity

/-- Helper: channel value 20 linearizes below 0.15 (the gamma power with
exponent 2.4 of a base in (0,1) is at most the base itself). -/
theorem srgbLin_20_le : srgbLin 20 ≤ 0.15 := by
  unfold srgbLin
  dsimp only
  rw [if_neg (by norm_num)]
  have hb0 : (0 : ℝ) < (((20 : ℕ) : ℝ) / 255 + 0.055) / 1.055 := by norm_num
  have hb1 : (((20 : ℕ) : ℝ) / 255 + 0.055) / 1.055 ≤ 1 := by norm_num
  calc ((((20 : ℕ) : ℝ) / 255 + 0.055) / 1.055) ^ (2.4 : ℝ)
      ≤ ((((20 : ℕ) : ℝ) / 255 + 0.055) / 1.055) ^ (1 : ℝ) :=
        Real.rpow_le_rpow_of_exponent_ge hb0 hb1 (by norm_num)
    _ = (((20 : ℕ) : ℝ) / 255 + 0.055) / 1.055 := Real.rpow_one _
    _ ≤ 0.15 := by norm_num

/-- Helper: channel value 240 linearizes above 0.4 (the gamma power with
exponent 2.4 of a base in (0,1) is at least the base cubed). -/
theorem srgbLin_240_gt : 0.4 < srgbLin 240 := by
  unfold srgbLin
  dsimp only
  rw [if_neg (by norm_num)]
  have hb0 : (0 : ℝ) < (((240 : ℕ) : ℝ) / 255 + 0.055) / 1.055 := by norm_num
  have hb1 : (((240 : ℕ) : ℝ) / 255 + 0.055) / 1.055 ≤ 1 := by norm_num
  have hcube : ((((240 : ℕ) : ℝ) / 255 + 0.055) / 1.055) ^ (3 : ℝ) =
      ((((240 : ℕ) : ℝ) / 255 + 0.055) / 1.055) ^ (3 : ℕ) := by
    rw [show (3 : ℝ) = ((3 : ℕ) : ℝ) by norm_num, Real.rpow_natCast]
  calc (0.4 : ℝ)
      < ((((240 : ℕ) : ℝ) / 255 + 0.055) / 1.055) ^ (3 : ℕ) := by norm_num
    _ = ((((240 : ℕ) : ℝ) / 255 + 0.055) / 1.055) ^ (3 : ℝ) := hcube.symm
    _ ≤ ((((240 : ℕ) : ℝ) / 255 + 0.055) / 1.055) ^ (2.4 : ℝ) :=
        Real.rpow_le_rpow_of_exponent_ge hb0 hb1 (by norm_num)

/-- Helper: rgb(20,20,20) has luminance at most 0.15. -/
theorem luminance_20 : luminance 20 20 20 ≤ 0.15 := by
  have h := srgbLin_20_le
  have h0 := srgbLin_nonneg 20
  unfold luminance
  linarith

/-- Helper: rgb(240,240,240) has luminance above 0.4. -/
theorem luminance_240 : 0.4 < luminance 240 240 240 := by
  have h := srgbLin_240_gt
  unfold luminance
  linarith

/-- Helper: the light-text branch of `contrastingHighlight`. -/
theorem contrastingHighlight_light (c : Rgb) (s : Bool)
    (h : 0.4 < luminance c.r c.g c.b) :
    contrastingHighlight (some c) s =
      ⟨⟨30, 40, 70, if s then 0.28 else 0.18⟩, ⟨30, 40, 70, 0.45⟩⟩ := by
  simp only [contrastingHighlight]
  rw [if_pos h]

/-- Helper: the mid-tone branch of `contrastingHighlight`. -/
theorem contrastingHighlight_mid (c : Rgb) (s : Bool)
    (h1 : 0.15 < luminance c.r c.g c.b) (h2 : luminance c.r c.g c.b ≤ 0.4) :
    contrastingHighlight (some c) s =
      ⟨⟨255, 249, 196, (if s then 0.28 else 0.18) + 0.1⟩,
        ⟨120, 100, 30, 0.4⟩⟩ := by
  simp only [contrastingHighlight]
  rw [if_neg (not_lt.mpr h2), if_pos h1]

/-- Helper: the dark-text branch of `contrastingHighlight`. -/
theorem contrastingHighlight_dark (c : Rgb) (s : Bool)
    (h : luminance c.r c.g c.b ≤ 0.15) :
    contrastingHighlight (some c) s =
      ⟨⟨255, 240, 140, (if s then 0.28 else 0.18) + 0.15⟩,
        ⟨74, 111, 165, 0.5⟩⟩ := by
  have h2 : ¬ (0.4 : ℝ) < luminance c.r c.g c.b := by
    intro hc
    linarith
  have h3 : ¬ (0.15 : ℝ) < luminance c.r c.g c.b := not_lt.mpr h
  simp only [contrastingHighlight]
  rw [if_neg h2, if_neg h3]

/-- C5: the highlight is derived from the element's current inline text
color; with no color set, no contrast adjustment is made (the fixed
fallback colors are used); otherwise, with WCAG relative luminance on
linearized sRGB channels, luminance > 0.4 yields the dark semi-transparent
highlight, luminance in (0.15, 0.4] the warm light highlight, and
luminance ≤ 0.15 the brighter warm highlight; on every parsed color the
strong variant differs from the normal variant only by a fixed 0.1 alpha
increment on the background; rgb(20,20,20) takes the dark-text branch and
rgb(240,240,240) takes the light-text branch. -/
theorem contrast_rule :
    (∀ s : Bool, contrastingHighlight none s =
      ⟨if s then HIGHLIGHT_BG_STRONG else HIGHLIGHT_BG, UNDERLINE_COLOR⟩) ∧
    (∀ (c : Rgb) (s : Bool), 0.4 < luminance c.r c.g c.b →
      contrastingHighlight (some c) s =
        ⟨⟨30, 40, 70, if s then 0.28 else 0.18⟩, ⟨30, 40, 70, 0.45⟩⟩) ∧
    (∀ (c : Rgb) (s : Bool), 0.15 < luminance c.r c.g c.b →
      luminance c.r c.g c.b ≤ 0.4 →
      contrastingHighlight (some c) s =
        ⟨⟨255, 249, 196, (if s then 0.28 else 0.18) + 0.1⟩,
          ⟨120, 100, 30, 0.4⟩⟩) ∧
    (∀ (c : Rgb) (s : Bool), luminance c.r c.g c.b ≤ 0.15 →
      contrastingHighlight (some c) s =
        ⟨⟨255, 240, 140, (if s then 0.28 else 0.18) + 0.15⟩,
          ⟨74, 111, 165, 0.5⟩⟩) ∧
    (∀ c : Rgb,
      (contrastingHighlight (some c) true).bg.r =
        (contrastingHighlight (some c) false).bg.r ∧
      (contrastingHighlight (some c) true).bg.g =
        (contrastingHighlight (some c) false).bg.g ∧
      (contrastingHighlight (some c) true).bg.b =
        (contrastingHighlight (some c) false).bg.b ∧
      (contrastingHighlight (some c) true).bg.a =
        (contrastingHighlight (some c) false).bg.a + 0.1 ∧
      (contrastingHighlight (some c) true).underline =
        (contrastingHighlight (some c) false).underline) ∧
    (∀ s : Bool, contrastingHighlight (some ⟨20, 20, 20⟩) s =
      ⟨⟨255, 240, 140, (if s then 0.28 else 0.18) + 0.15⟩,
        ⟨74, 111, 165, 0.5⟩⟩) ∧
    (∀ s : Bool, contrastingHighlight (some ⟨240, 240, 240⟩) s =
      ⟨⟨30, 40, 70, if s then 0.28 else 0.18⟩, ⟨30, 40, 70, 0.45⟩⟩) := by
  refine ⟨fun s => rfl, contrastingHighlight_light, contrastingHighlight_mid,
    contrastingHighlight_dark, ?_, ?_, ?_⟩
  · intro c
    by_cases h1 : (0.4 : ℝ) < luminance c.r c.g c.b
    · rw [contrastingHighlight_light c true h1,
        contrastingHighlight_light c false h1]
      norm_num
    · by_cases h2 : (0.15 : ℝ) < luminance c.r c.g c.b
      · rw [contrastingHighlight_mid c true h2 (not_lt.mp h1),
          contrastingHighlight_mid c false h2 (not_lt.mp h1)]
        norm_num
      · rw [contrastingHighlight_dark c true (not_lt.mp h2),
          contrastingHighlight_dark c false (not_lt.mp h2)]
        norm_num
  · intro s
    exact contrastingHighlight_dark ⟨20, 20, 20⟩ s luminance_20
  · intro s
    exact contrastingHighlight_light ⟨240, 240, 240⟩ s luminance_240

/-- Witness for C5: the dark-text branch at rgb(20,20,20), with the
luminance hypothesis discharged concretely. -/
theorem contrast_rule_witness :
    contrastingHighlight (some ⟨20, 20, 20⟩) false =
      ⟨⟨255, 240, 140, (0.18 : ℚ) + 0.15⟩, ⟨74, 111, 165, 0.5⟩⟩ := by
  have h := contrast_rule.2.2.2.1 ⟨20, 20, 20⟩ false luminance_20
  simpa using h

/-- Helper bridge: since the radii are nonnegative, comparing the source's
`Math.sqrt(dx*dx+dy*dy)` against a radius is comparing the squared distance
against the squared radius. -/
theorem wordDist_le_iff (w : WordRegion) (gx gy r : ℚ) (hr : 0 ≤ r) :
    wordDist w gx gy ≤ (r : ℝ) ↔ distSq w gx gy ≤ r ^ 2 := by
  unfold wordDist
  rw [Real.sqrt_le_left (by exact_mod_cast hr)]
  exact_mod_cast Iff.rfl

/-- Helper bridge, strict form. -/
theorem lt_wordDist_iff (w : WordRegion) (gx gy r : ℚ) (hr : 0 ≤ r) :
    (r : ℝ) < wordDist w gx gy ↔ r ^ 2 < distSq w gx gy := by
  rw [lt_iff_not_le, wordDist_le_iff w gx gy r hr, lt_iff_not_le]

/-- Helper: the `toHighlight` list built by the classification loop is the
in-order filter of the scanned regions by `dist ≤ focusR`, paired with
their (squared) distances. -/
theorem classifyGo_hi (gx gy fR tR : ℚ) (ws : List WordRegion)
    (acc : ClassifyAcc) :
    (classifyGo gx gy fR tR ws acc).hi =
      acc.hi ++ (ws.filter fun w => decide (distSq w gx gy ≤ fR ^ 2)).map
        (fun w => (w, distSq w gx gy)) := by
  induction ws generalizing acc with
  | nil => simp [classifyGo]
  | cons w ws ih =>
      by_cases h1 : distSq w gx gy ≤ fR ^ 2
      · rw [classifyGo, if_pos h1, ih]
        simp [List.filter_cons, h1]
      · by_cases h2 : distSq w gx gy ≤ tR ^ 2
        · rw [classifyGo, if_neg h1, if_pos h2, ih]
          simp [List.filter_cons, h1]
        · rw [classifyGo, if_neg h1, if_neg h2, ih]
          simp [List.filter_cons, h1]

/-- Helper: the `toTransition` list built by the classification loop is the
in-order filter of the scanned regions by `focusR < dist ≤ transR`. -/
theorem classifyGo_trans (gx gy fR tR : ℚ) (ws : List WordRegion)
    (acc : ClassifyAcc) :
    (classifyGo gx gy fR tR ws acc).trans =
      acc.trans ++
        (ws.filter fun w =>
          decide (fR ^ 2 < distSq w gx gy) &&
            decide (distSq w gx gy ≤ tR ^ 2)).map
          (fun w => (w, distSq w gx gy)) := by
  induction ws generalizing acc with
  | nil => simp [classifyGo]
  | cons w ws ih =>
      by_cases h1 : distSq w gx gy ≤ fR ^ 2
      · rw [classifyGo, if_pos h1, ih]
        simp [List.filter_cons, not_lt.mpr h1]
      · by_cases h2 : distSq w gx gy ≤ tR ^ 2
        · rw [classifyGo, if_neg h1, if_pos h2, ih]
          simp [List.filter_cons, not_le.mp h1, h2]
        · rw [classifyGo, if_neg h1, if_neg h2, ih]
          simp [List.filter_cons, not_le.mp h1, h2]

/-- The loop invariant of `closestWord`/`closestDist` over a scanned prefix
`l`: either no scanned region lies within the focus radius, or the tracked
pair carries the squared distance of its region, lies within the focus
radius, is minimal over all scanned in-focus regions, and every region
scanned strictly before it that is in focus is strictly farther (so ties
keep the first-encountered region). -/
def GoodClosest (gx gy fR : ℚ) (l : List WordRegion) :
    Option (WordRegion × ℚ) → Prop
  | none => ∀ w ∈ l, ¬ distSq w gx gy ≤ fR ^ 2
  | some p => p.2 = distSq p.1 gx gy ∧ p.2 ≤ fR ^ 2 ∧
      (∀ w ∈ l, distSq w gx gy ≤ fR ^ 2 → p.2 ≤ distSq w gx gy) ∧
      ∃ l1 l2, l = l1 ++ p.1 :: l2 ∧
        ∀ w ∈ l1, distSq w gx gy ≤ fR ^ 2 → p.2 < distSq w gx gy

/-- Helper: the classification loop preserves the `closestWord` invariant. -/
theorem classifyGo_closest (gx gy fR tR : ℚ) (ws : List WordRegion) :
    ∀ (l : List WordRegion) (acc : ClassifyAcc),
      GoodClosest gx gy fR l acc.closest →
      GoodClosest gx gy fR (l ++ ws) (classifyGo gx gy fR tR ws acc).closest := by
  induction ws with
  | nil =>
      intro l acc h
      simpa [classifyGo] using h
  | cons w ws ih =>
      intro l acc h
      have happ : l ++ w :: ws = (l ++ [w]) ++ ws := by simp
      by_cases h1 : distSq w gx gy ≤ fR ^ 2
      · rw [classifyGo, if_pos h1, happ]
        apply ih
        cases hc : acc.closest with
        | none =>
            rw [hc] at h
            refine ⟨rfl, h1, ?_, l, [], by simp, ?_⟩
            · intro v hv hvle
              rcases List.mem_append.mp hv with hv | hv
              · exact absurd hvle (h v hv)
              · rw [List.mem_singleton.mp hv]
            · intro v hv hvle
              exact absurd hvle (h v hv)
        | some p =>
            obtain ⟨w0, d0⟩ := p
            rw [hc] at h
            obtain ⟨hpd, hple, hmin, l1, l2, hsplit, hfirst⟩ := h
            dsimp only
            by_cases hlt : distSq w gx gy < d0
            · rw [if_pos hlt]
              refine ⟨rfl, h1, ?_, l, [], by simp, ?_⟩
              · intro v hv hvle
                rcases List.mem_append.mp hv with hv | hv
                · exact le_of_lt (lt_of_lt_of_le hlt (hmin v hv hvle))
                · rw [List.mem_singleton.mp hv]
              · intro v hv hvle
                exact lt_of_lt_of_le hlt (hmin v hv hvle)
            · rw [if_neg hlt]
              refine ⟨hpd, hple, ?_, l1, l2 ++ [w], by rw [hsplit]; simp,
                hfirst⟩
              intro v hv hvle
              rcases List.mem_append.mp hv with hv | hv
              · exact hmin v hv hvle
              · rw [List.mem_singleton.mp hv]
                exact le_of_not_lt hlt
      · have hstep : GoodClosest gx gy fR (l ++ [w]) acc.closest := by
          cases hc : acc.closest with
          | none =>
              rw [hc] at h
              intro v hv
              rcases List.mem_append.mp hv with hv | hv
              · exact h v hv
              · rw [List.mem_singleton.mp hv]
                exact h1
          | some p =>
              rw [hc] at h
              obtain ⟨hpd, hple, hmin, l1, l2, hsplit, hfirst⟩ := h
              refine ⟨hpd, hple, ?_, l1, l2 ++ [w], by rw [hsplit]; simp,
                hfirst⟩
              intro v hv hvle
              rcases List.mem_append.mp hv with hv | hv
              · exact hmin v hv hvle
              · rw [List.mem_singleton.mp hv] at hvle
                exact absurd hvle h1
        by_cases h2 : distSq w gx gy ≤ tR ^ 2
        · rw [classifyGo, if_neg h1, if_pos h2, happ]
          exact ih (l ++ [w]) _ hstep
        · rw [classifyGo, if_neg h1, if_neg h2, happ]
          exact ih (l ++ [w]) _ hstep

/-- Helper: a background write never touches another element. -/
theorem setBg_ne (d : Dom) (j i : ℕ) (v : CssVal) (h : j ≠ i) :
    setBg d j v i = d i := by
  simp [setBg, Function.update_noteq (Ne.symm h)]

/-- Helper: a shadow write never touches another element. -/
theorem setShadow_ne (d : Dom) (j i : ℕ) (v : CssVal) (h : j ≠ i) :
    setShadow d j v i = d i := by
  simp [setShadow, Function.update_noteq (Ne.symm h)]

/-- Helper: background writes preserve `color` and `writable` everywhere. -/
theorem setBg_fields (d : Dom) (j i : ℕ) (v : CssVal) :
    (setBg d j v i).color = (d i).color ∧
    (setBg d j v i).writable = (d i).writable := by
  by_cases h : j = i
  · subst h
    simp [setBg]
  · rw [setBg_ne d j i v h]
    exact ⟨rfl, rfl⟩

/-- Helper: shadow writes preserve `color` and `writable` everywhere. -/
theorem setShadow_fields (d : Dom) (j i : ℕ) (v : CssVal) :
    (setShadow d j v i).color = (d i).color ∧
    (setShadow d j v i).writable = (d i).writable := by
  by_cases h : j = i
  · subst h
    simp [setShadow]
  · rw [setShadow_ne d j i v h]
    exact ⟨rfl, rfl⟩

/-- Helper: membership in the tracked set after a highlight-writing loop:
exactly the initial members plus the ids of the processed entries. -/
theorem foldl_bgWriteStep_mem (v : Dom → WordRegion × ℚ → CssVal)
    (l : List (WordRegion × ℚ)) (init : Dom × Finset ℕ) (i : ℕ) :
    i ∈ (l.foldl (bgWriteStep v) init).2 ↔
      i ∈ init.2 ∨ ∃ p ∈ l, p.1.id = i := by
  induction l generalizing init with
  | nil => simp
  | cons e l ih =>
      rw [List.foldl_cons, ih]
      simp only [bgWriteStep, Finset.mem_insert, List.mem_cons]
      constructor
      · rintro (⟨h | h⟩ | ⟨p, hp, hpi⟩)
        · exact Or.inr ⟨e, Or.inl rfl, h.symm⟩
        · exact Or.inl h
        · exact Or.inr ⟨p, Or.inr hp, hpi⟩
      · rintro (h | ⟨p, hp | hp, hpi⟩)
        · exact Or.inl (Or.inr h)
        · subst hp
          exact Or.inl (Or.inl hpi.symm)
        · exact Or.inr ⟨p, hp, hpi⟩

/-- Helper: an element that is not tracked after a highlight-writing loop
was not written by it and was not tracked before. -/
theorem foldl_bgWriteStep_not_mem (v : Dom → WordRegion × ℚ → CssVal)
    (l : List (WordRegion × ℚ)) (init : Dom × Finset ℕ) (i : ℕ)
    (h : i ∉ (l.foldl (bgWriteStep v) init).2) :
    (l.foldl (bgWriteStep v) init).1 i = init.1 i ∧ i ∉ init.2 := by
  induction l generalizing init with
  | nil => exact ⟨rfl, h⟩
  | cons e l ih =>
      rw [List.foldl_cons] at h ⊢
      obtain ⟨hval, hmem⟩ := ih (bgWriteStep v init e) h
      simp only [bgWriteStep, Finset.mem_insert, not_or] at hmem
      refine ⟨?_, hmem.2⟩
      rw [hval]
      exact setBg_ne init.1 e.1.id i (v init.1 e) (fun h => hmem.1 h.symm)

/-- Helper: a highlight-writing loop preserves `color` and `writable`
everywhere. -/
theorem foldl_bgWriteStep_fields (v : Dom → WordRegion × ℚ → CssVal)
    (l : List (WordRegion × ℚ)) (init : Dom × Finset ℕ) (i : ℕ) :
    ((l.foldl (bgWriteStep v) init).1 i).color = (init.1 i).color ∧
    ((l.foldl (bgWriteStep v) init).1 i).writable = (init.1 i).writable := by
  induction l generalizing init with
  | nil => exact ⟨rfl, rfl⟩
  | cons e l ih =>
      rw [List.foldl_cons]
      obtain ⟨hc, hw⟩ := ih (bgWriteStep v init e)
      rw [hc, hw]
      exact setBg_fields init.1 e.1.id i (v init.1 e)

/-- Helper: the tracked set produced by steps 5-7 consists exactly of the
ids of the focus and transition entries. -/
theorem applyStyles_mem (c : ClassifyAcc) (fR tR : ℚ) (d : Dom) (i : ℕ) :
    i ∈ (applyStyles c fR tR d).2.1 ↔
      (∃ p ∈ c.hi, p.1.id = i) ∨ ∃ p ∈ c.trans, p.1.id = i := by
  unfold applyStyles
  cases hc : c.closest with
  | none =>
      dsimp only
      rw [foldl_bgWriteStep_mem, foldl_bgWriteStep_mem]
      simp
  | some p =>
      obtain ⟨w, dd⟩ := p
      dsimp only
      rw [foldl_bgWriteStep_mem, foldl_bgWriteStep_mem]
      simp

/-- Helper: an element tracked by neither list keeps its style through
steps 5-7, provided the closest word (if any) is one of the focus
entries — which `classifyGo` guarantees. -/
theorem applyStyles_not_mem (c : ClassifyAcc) (fR tR : ℚ) (d : Dom) (i : ℕ)
    (hcl : ∀ p, c.closest = some p → ∃ q ∈ c.hi, q.1.id = p.1.id)
    (h : i ∉ (applyStyles c fR tR d).2.1) :
    (applyStyles c fR tR d).1 i = d i := by
  unfold applyStyles at h ⊢
  cases hc : c.closest with
  | none =>
      rw [hc] at h
      dsimp only at h ⊢
      obtain ⟨h7, h5m⟩ := foldl_bgWriteStep_not_mem _ _ _ _ h
      obtain ⟨h5, -⟩ := foldl_bgWriteStep_not_mem _ _ _ _ h5m
      rw [h7, h5]
  | some p =>
      obtain ⟨w, dd⟩ := p
      rw [hc] at h
      dsimp only at h ⊢
      obtain ⟨h7, h5m⟩ := foldl_bgWriteStep_not_mem _ _ _ _ h
      obtain ⟨q, hq, hqi⟩ := hcl (w, dd) hc
      have hwmem : w.id ∈ (c.hi.foldl (bgWriteStep hiVal) (d, ∅)).2 := by
        rw [foldl_bgWriteStep_mem]
        exact Or.inr ⟨q, hq, hqi⟩
      have hne : w.id ≠ i := fun hcontra => h5m (hcontra ▸ hwmem)
      rw [h7]
      dsimp only
      rw [setShadow_ne _ _ _ _ hne, setBg_ne _ _ _ _ hne]
      obtain ⟨h5, -⟩ := foldl_bgWriteStep_not_mem _ _ _ _ h5m
      rw [h5]

/-- Helper: steps 5-7 preserve `color` and `writable` everywhere. -/
theorem applyStyles_fields (c : ClassifyAcc) (fR tR : ℚ) (d : Dom) (i : ℕ) :
    ((applyStyles c fR tR d).1 i).color = (d i).color ∧
    ((applyStyles c fR tR d).1 i).writable = (d i).writable := by
  unfold applyStyles
  cases hc : c.closest with
  | none =>
      dsimp only
      obtain ⟨h7c, h7w⟩ := foldl_bgWriteStep_fields (transVal fR tR) c.trans
        ((c.hi.foldl (bgWriteStep hiVal) (d, ∅)).1,
          (c.hi.foldl (bgWriteStep hiVal) (d, ∅)).2) i
      obtain ⟨h5c, h5w⟩ := foldl_bgWriteStep_fields hiVal c.hi (d, ∅) i
      exact ⟨h7c.trans h5c, h7w.trans h5w⟩
  | some p =>
      obtain ⟨w, dd⟩ := p
      dsimp only
      obtain ⟨h7c, h7w⟩ := foldl_bgWriteStep_fields (transVal fR tR) c.trans
        (setShadow
          (setBg (c.hi.foldl (bgWriteStep hiVal) (d, ∅)).1 w.id
            (.hl (contrastingHighlight
              ((c.hi.foldl (bgWriteStep hiVal) (d, ∅)).1 w.id).color true).bg))
          w.id
          (.shadow (contrastingHighlight
            ((c.hi.foldl (bgWriteStep hiVal) (d, ∅)).1 w.id).color
              true).underline),
          (c.hi.foldl (bgWriteStep hiVal) (d, ∅)).2) i
      obtain ⟨hsc, hsw⟩ := setShadow_fields
        (setBg (c.hi.foldl (bgWriteStep hiVal) (d, ∅)).1 w.id
          (.hl (contrastingHighlight
            ((c.hi.foldl (bgWriteStep hiVal) (d, ∅)).1 w.id).color true).bg))
        w.id i _
      obtain ⟨hbc, hbw⟩ := setBg_fields
        (c.hi.foldl (bgWriteStep hiVal) (d, ∅)).1 w.id i _
      obtain ⟨h5c, h5w⟩ := foldl_bgWriteStep_fields hiVal c.hi (d, ∅) i
      exact ⟨(((h7c.trans hsc).trans hbc).trans h5c),
        (((h7w.trans hsw).trans hbw).trans h5w)⟩

/-- Helper: squared distances are nonnegative. -/
theorem distSq_nonneg (w : WordRegion) (gx gy : ℚ) : 0 ≤ distSq w gx gy := by
  unfold distSq
  positivity

/-- Helper: the classification of a whole frame satisfies the
`closestWord` invariant over the whole cache. -/
theorem classifyFrame_closest_good (cache : List WordRegion)
    (gx gy fR tR : ℚ) :
    GoodClosest gx gy fR cache (classifyFrame cache gx gy fR tR).closest := by
  have h0 : GoodClosest gx gy fR [] (none : Option (WordRegion × ℚ)) := by
    intro w hw
    exact absurd hw (List.not_mem_nil w)
  have := classifyGo_closest gx gy fR tR cache [] ⟨none, [], []⟩ h0
  simpa using this

/-- Helper: the closest word of a frame, when present, is one of the
focus (`toHighlight`) entries. -/
theorem classifyFrame_closest_mem_hi (cache : List WordRegion)
    (gx gy fR tR : ℚ) :
    ∀ p, (classifyFrame cache gx gy fR tR).closest = some p →
      ∃ q ∈ (classifyFrame cache gx gy fR tR).hi, q.1.id = p.1.id := by
  intro p hp
  have hg := classifyFrame_closest_good cache gx gy fR tR
  rw [hp] at hg
  obtain ⟨hpd, hple, -, l1, l2, hsplit, -⟩ := hg
  refine ⟨(p.1, distSq p.1 gx gy), ?_, rfl⟩
  have hmem : p.1 ∈ cache := by
    rw [hsplit]
    simp
  rw [classifyFrame, classifyGo_hi]
  simp only [List.nil_append]
  refine List.mem_map.mpr ⟨p.1, List.mem_filter.mpr ⟨hmem, ?_⟩, rfl⟩
  exact decide_eq_true (hpd ▸ hple)

/-- C2: for every frame sample (gx, gy) and cached region, the region is
classified focus iff its Euclidean distance to the sample is ≤ focusRadius,
transition iff focusRadius < distance ≤ transitionRadius, and otherwise
receives no highlight; in any frame with at least one region within
focusRadius exactly one region is primary, namely the minimum-distance one
with ties broken in favor of the first-encountered region in cache order;
and no element all of whose cache entries lie beyond transitionRadius
receives a non-empty highlight style from the frame. -/
theorem zone_partition_and_primary (cache : List WordRegion) (gx gy m : ℚ)
    (hm : 0 ≤ m) :
    ((classifyFrame cache gx gy (focusRadiusFor m)
        (transitionRadiusFor m)).hi =
      (cache.filter fun w =>
        decide (distSq w gx gy ≤ focusRadiusFor m ^ 2)).map
        (fun w => (w, distSq w gx gy))) ∧
    ((classifyFrame cache gx gy (focusRadiusFor m)
        (transitionRadiusFor m)).trans =
      (cache.filter fun w =>
        decide (focusRadiusFor m ^ 2 < distSq w gx gy) &&
          decide (distSq w gx gy ≤ transitionRadiusFor m ^ 2)).map
        (fun w => (w, distSq w gx gy))) ∧
    (∀ w ∈ cache,
      ((w, distSq w gx gy) ∈
          (classifyFrame cache gx gy (focusRadiusFor m)
            (transitionRadiusFor m)).hi ↔
        wordDist w gx gy ≤ ((focusRadiusFor m : ℚ) : ℝ)) ∧
      ((w, distSq w gx gy) ∈
          (classifyFrame cache gx gy (focusRadiusFor m)
            (transitionRadiusFor m)).trans ↔
        ((focusRadiusFor m : ℚ) : ℝ) < wordDist w gx gy ∧
          wordDist w gx gy ≤ ((transitionRadiusFor m : ℚ) : ℝ))) ∧
    ((∃ w ∈ cache, wordDist w gx gy ≤ ((focusRadiusFor m : ℚ) : ℝ)) →
      ∃ w0 ∈ cache,
        (classifyFrame cache gx gy (focusRadiusFor m)
            (transitionRadiusFor m)).closest =
          some (w0, distSq w0 gx gy) ∧
        wordDist w0 gx gy ≤ ((focusRadiusFor m : ℚ) : ℝ) ∧
        (∀ w ∈ cache, wordDist w gx gy ≤ ((focusRadiusFor m : ℚ) : ℝ) →
          wordDist w0 gx gy ≤ wordDist w gx gy) ∧
        ∃ l1 l2, cache = l1 ++ w0 :: l2 ∧
          ∀ w ∈ l1, wordDist w gx gy ≤ ((focusRadiusFor m : ℚ) : ℝ) →
            wordDist w0 gx gy < wordDist w gx gy) ∧
    (∀ (st : GazeDisplayState) (i : ℕ),
      (∀ w ∈ cache, w.id = i →
        ((transitionRadiusFor m : ℚ) : ℝ) < wordDist w gx gy) →
      (((applyFrame cache gx gy m st).dom i).background =
        (if i ∈ st.highlightedWords then CssVal.empty
          else (st.dom i).background)) ∧
      (((applyFrame cache gx gy m st).dom i).boxShadow =
        (if i ∈ st.highlightedWords then CssVal.empty
          else (st.dom i).boxShadow)) ∧
      i ∉ (applyFrame cache gx gy m st).highlightedWords) := by
  have hfr : (0 : ℚ) ≤ focusRadiusFor m :=
    mul_nonneg (by norm_num [FOCUS_RADIUS]) hm
  have htr : (0 : ℚ) ≤ transitionRadiusFor m :=
    mul_nonneg (by norm_num [TRANSITION_RADIUS]) hm
  have hftr : focusRadiusFor m ≤ transitionRadiusFor m := by
    unfold focusRadiusFor transitionRadiusFor FOCUS_RADIUS TRANSITION_RADIUS
    nlinarith
  have hhi : (classifyFrame cache gx gy (focusRadiusFor m)
      (transitionRadiusFor m)).hi =
      (cache.filter fun w =>
        decide (distSq w gx gy ≤ focusRadiusFor m ^ 2)).map
        (fun w => (w, distSq w gx gy)) := by
    rw [classifyFrame, classifyGo_hi]
    simp
  have htrans : (classifyFrame cache gx gy (focusRadiusFor m)
      (transitionRadiusFor m)).trans =
      (cache.filter fun w =>
        decide (focusRadiusFor m ^ 2 < distSq w gx gy) &&
          decide (distSq w gx gy ≤ transitionRadiusFor m ^ 2)).map
        (fun w => (w, distSq w gx gy)) := by
    rw [classifyFrame, classifyGo_trans]
    simp
  have hmemhi : ∀ w ∈ cache,
      (w, distSq w gx gy) ∈
        (classifyFrame cache gx gy (focusRadiusFor m)
          (transitionRadiusFor m)).hi ↔
      distSq w gx gy ≤ focusRadiusFor m ^ 2 := by
    intro w hw
    rw [hhi]
    constructor
    · intro hmem
      obtain ⟨a, ha, hae⟩ := List.mem_map.mp hmem
      have : a = w := congrArg Prod.fst hae
      subst this
      exact of_decide_eq_true (List.mem_filter.mp ha).2
    · intro hle
      exact List.mem_map.mpr
        ⟨w, List.mem_filter.mpr ⟨hw, decide_eq_true hle⟩, rfl⟩
  have hmemtr : ∀ w ∈ cache,
      (w, distSq w gx gy) ∈
        (classifyFrame cache gx gy (focusRadiusFor m)
          (transitionRadiusFor m)).trans ↔
      (focusRadiusFor m ^ 2 < distSq w gx gy ∧
        distSq w gx gy ≤ transitionRadiusFor m ^ 2) := by
    intro w hw
    rw [htrans]
    constructor
    · intro hmem
      obtain ⟨a, ha, hae⟩ := List.mem_map.mp hmem
      have : a = w := congrArg Prod.fst hae
      subst this
      have hcond := (List.mem_filter.mp ha).2
      rw [Bool.and_eq_true, decide_eq_true_eq, decide_eq_true_eq] at hcond
      exact hcond
    · intro ⟨h1, h2⟩
      refine List.mem_map.mpr ⟨w, List.mem_filter.mpr ⟨hw, ?_⟩, rfl⟩
      rw [Bool.and_eq_true, decide_eq_true_eq, decide_eq_true_eq]
      exact ⟨h1, h2⟩
  refine ⟨hhi, htrans, ?_, ?_, ?_⟩
  · intro w hw
    constructor
    · rw [hmemhi w hw, wordDist_le_iff w gx gy _ hfr]
    · rw [hmemtr w hw, lt_wordDist_iff w gx gy _ hfr,
        wordDist_le_iff w gx gy _ htr]
  · intro ⟨w, hw, hwd⟩
    rw [wordDist_le_iff w gx gy _ hfr] at hwd
    have hg := classifyFrame_closest_good cache gx gy (focusRadiusFor m)
      (transitionRadiusFor m)
    cases hc : (classifyFrame cache gx gy (focusRadiusFor m)
        (transitionRadiusFor m)).closest with
    | none =>
        rw [hc] at hg
        exact absurd hwd (hg w hw)
    | some p =>
        rw [hc] at hg
        obtain ⟨hpd, hple, hmin, l1, l2, hsplit, hfirst⟩ := hg
        have hp1mem : p.1 ∈ cache := by
          rw [hsplit]
          simp
        refine ⟨p.1, hp1mem, ?_, ?_, ?_, l1, l2, hsplit, ?_⟩
        · rw [← hpd]
        · rw [wordDist_le_iff p.1 gx gy _ hfr, ← hpd]
          exact hple
        · intro v hv hvle
          rw [wordDist_le_iff v gx gy _ hfr] at hvle
          have := hmin v hv hvle
          rw [hpd] at this
          unfold wordDist
          exact Real.sqrt_le_sqrt (by exact_mod_cast this)
        · intro v hv hvle
          rw [wordDist_le_iff v gx gy _ hfr] at hvle
          have := hfirst v hv hvle
          rw [hpd] at this
          unfold wordDist
          exact Real.sqrt_lt_sqrt
            (by exact_mod_cast distSq_nonneg p.1 gx gy) (by exact_mod_cast this)
  · intro st i hbeyond
    have hsq : ∀ w ∈ cache, w.id = i →
        transitionRadiusFor m ^ 2 < distSq w gx gy := by
      intro w hw hwi
      have := hbeyond w hw hwi
      rw [lt_wordDist_iff w gx gy _ htr] at this
      exact this
    have hnin : i ∉ (applyStyles
        (classifyFrame cache gx gy (focusRadiusFor m) (transitionRadiusFor m))
        (focusRadiusFor m) (transitionRadiusFor m)
        (clearIds st.dom st.highlightedWords)).2.1 := by
      rw [applyStyles_mem]
      rintro (⟨p, hp, hpi⟩ | ⟨p, hp, hpi⟩)
      · rw [hhi] at hp
        obtain ⟨a, ha, hae⟩ := List.mem_map.mp hp
        obtain ⟨hamem, hacond⟩ := List.mem_filter.mp ha
        have haw : a = p.1 := congrArg Prod.fst hae
        subst haw
        have h1 := of_decide_eq_true hacond
        have h2 := hsq p.1 hamem hpi
        have h3 : focusRadiusFor m ^ 2 ≤ transitionRadiusFor m ^ 2 :=
          pow_le_pow_left₀ hfr hftr 2
        linarith
      · rw [htrans] at hp
        obtain ⟨a, ha, hae⟩ := List.mem_map.mp hp
        obtain ⟨hamem, hacond⟩ := List.mem_filter.mp ha
        have haw : a = p.1 := congrArg Prod.fst hae
        subst haw
        rw [Bool.and_eq_true, decide_eq_true_eq, decide_eq_true_eq] at hacond
        have h2 := hsq p.1 hamem hpi
        linarith [hacond.2]
    have hval := applyStyles_not_mem
      (classifyFrame cache gx gy (focusRadiusFor m) (transitionRadiusFor m))
      (focusRadiusFor m) (transitionRadiusFor m)
      (clearIds st.dom st.highlightedWords) i
      (classifyFrame_closest_mem_hi cache gx gy _ _) hnin
    have hdom : (applyFrame cache gx gy m st).dom i =
        clearIds st.dom st.highlightedWords i := hval
    have hhw : (applyFrame cache gx gy m st).highlightedWords =
        (applyStyles
          (classifyFrame cache gx gy (focusRadiusFor m)
            (transitionRadiusFor m))
          (focusRadiusFor m) (transitionRadiusFor m)
          (clearIds st.dom st.highlightedWords)).2.1 := rfl
    refine ⟨?_, ?_, ?_⟩
    · rw [hdom]
      by_cases hmem : i ∈ st.highlightedWords <;> simp [clearIds, hmem]
    · rw [hdom]
      by_cases hmem : i ∈ st.highlightedWords <;> simp [clearIds, hmem]
    · rw [hhw]
      exact hnin

/-- Witness for C2: a single region at distance 5 from the sample with
medium intensity is classified focus. -/
theorem zone_partition_and_primary_witness :
    ((⟨0, 3, 4⟩ : WordRegion), (25 : ℚ)) ∈
      (classifyFrame [⟨0, 3, 4⟩] 0 0 (focusRadiusFor 1)
        (transitionRadiusFor 1)).hi := by
  have h := (zone_partition_and_primary [⟨0, 3, 4⟩] 0 0 1 (by norm_num)).2.2.1
    ⟨0, 3, 4⟩ (by simp)
  have hd : distSq ⟨0, 3, 4⟩ 0 0 = 25 := by norm_num [distSq]
  rw [← hd]
  refine h.1.mpr ?_
  unfold wordDist
  rw [Real.sqrt_le_left (by norm_num [focusRadiusFor, FOCUS_RADIUS])]
  rw [hd]
  norm_num [focusRadiusFor, FOCUS_RADIUS]

/-- Helper: one frame of the renderer, relative to a pristine style store
`dom0` whose inline `background` and `boxShadow` are everywhere empty:
every untracked element holds exactly its pristine style, and `color` and
`writable` are never disturbed. -/
theorem applyFrame_inv (cache : List WordRegion) (gx gy m : ℚ)
    (st : GazeDisplayState) (dom0 : Dom)
    (hEmpty : ∀ i, (dom0 i).background = CssVal.empty ∧
      (dom0 i).boxShadow = CssVal.empty)
    (h1 : ∀ i, i ∉ st.highlightedWords → st.dom i = dom0 i)
    (h2 : ∀ i, (st.dom i).color = (dom0 i).color ∧
      (st.dom i).writable = (dom0 i).writable) :
    (∀ i, i ∉ (applyFrame cache gx gy m st).highlightedWords →
      (applyFrame cache gx gy m st).dom i = dom0 i) ∧
    (∀ i, ((applyFrame cache gx gy m st).dom i).color = (dom0 i).color ∧
      ((applyFrame cache gx gy m st).dom i).writable = (dom0 i).writable) := by
  have hcd : clearIds st.dom st.highlightedWords = dom0 := by
    funext i
    by_cases hmem : i ∈ st.highlightedWords
    · have hf := h2 i
      have he := hEmpty i
      apply Elem.ext
      · simp [clearIds, hmem, he.1.symm]
      · simp [clearIds, hmem, he.2.symm]
      · simp [clearIds, hmem, hf.1]
      · simp [clearIds, hmem, hf.2]
    · simp only [clearIds, if_neg hmem]
      exact h1 i hmem
  have hdomeq : ∀ i, (applyFrame cache gx gy m st).dom i =
      (applyStyles
        (classifyFrame cache gx gy (focusRadiusFor m)
          (transitionRadiusFor m))
        (focusRadiusFor m) (transitionRadiusFor m) dom0).1 i := by
    intro i
    show (applyStyles _ _ _ (clearIds st.dom st.highlightedWords)).1 i = _
    rw [hcd]
  have hhweq : (applyFrame cache gx gy m st).highlightedWords =
      (applyStyles
        (classifyFrame cache gx gy (focusRadiusFor m)
          (transitionRadiusFor m))
        (focusRadiusFor m) (transitionRadiusFor m) dom0).2.1 := by
    show (applyStyles _ _ _ (clearIds st.dom st.highlightedWords)).2.1 = _
    rw [hcd]
  constructor
  · intro i hmem
    rw [hhweq] at hmem
    rw [hdomeq i]
    exact applyStyles_not_mem _ _ _ dom0 i
      (classifyFrame_closest_mem_hi cache gx gy _ _) hmem
  · intro i
    rw [hdomeq i]
    exact applyStyles_fields _ _ _ dom0 i

/-- Helper: the frame invariant is preserved along any sequence of frames
(each with its own cache, sample and intensity). -/
theorem foldFrames_inv (frames : List (List WordRegion × ℚ × ℚ × ℚ))
    (dom0 : Dom)
    (hEmpty : ∀ i, (dom0 i).background = CssVal.empty ∧
      (dom0 i).boxShadow = CssVal.empty) :
    ∀ st : GazeDisplayState,
      (∀ i, i ∉ st.highlightedWords → st.dom i = dom0 i) →
      (∀ i, (st.dom i).color = (dom0 i).color ∧
        (st.dom i).writable = (dom0 i).writable) →
      (∀ i, i ∉ (frames.foldl
          (fun s f => applyFrame f.1 f.2.1 f.2.2.1 f.2.2.2 s)
          st).highlightedWords →
        (frames.foldl (fun s f => applyFrame f.1 f.2.1 f.2.2.1 f.2.2.2 s)
          st).dom i = dom0 i) ∧
      (∀ i, ((frames.foldl (fun s f => applyFrame f.1 f.2.1 f.2.2.1 f.2.2.2 s)
          st).dom i).color = (dom0 i).color ∧
        ((frames.foldl (fun s f => applyFrame f.1 f.2.1 f.2.2.1 f.2.2.2 s)
          st).dom i).writable = (dom0 i).writable) := by
  induction frames with
  | nil =>
      intro st h1 h2
      exact ⟨h1, h2⟩
  | cons f fs ih =>
      intro st h1 h2
      rw [List.foldl_cons]
      have hstep := applyFrame_inv f.1 f.2.1 f.2.2.1 f.2.2.2 st dom0 hEmpty h1 h2
      exact ih _ hstep.1 hstep.2

/-- A document whose element 0 carries a pre-existing inline background
(`background: red`, e.g. set before the renderer ever ran). -/
def preColoredDom : Dom := fun _ => ⟨CssVal.lit "red", CssVal.empty, none, true⟩

/-- An initial renderer state over `preColoredDom` with nothing tracked. -/
def preColoredState : GazeDisplayState :=
  ⟨false, 0, (0, 0), false, false, ⟨0, []⟩, none, false, preColoredDom, ∅, none⟩

/-- Counterexample to C1 as stated: element 0 holds inline background
"red" before its first mutation; after one frame that highlights it,
`stop()` resets its background to the empty string rather than restoring
"red" — the clearing is a blanket reset, not a snapshot-based restore. -/
theorem stop_not_snapshot_restore :
    ((stopGazeDisplay (applyFrame [⟨0, 0, 0⟩] 0 0 1
        preColoredState)).dom 0).background = CssVal.empty ∧
    (preColoredState.dom 0).background = CssVal.lit "red" ∧
    ((stopGazeDisplay (applyFrame [⟨0, 0, 0⟩] 0 0 1
        preColoredState)).dom 0).background ≠
      (preColoredState.dom 0).background := by
  have h : ((stopGazeDisplay (applyFrame [⟨0, 0, 0⟩] 0 0 1
      preColoredState)).dom 0).background = CssVal.empty := by
    norm_num [stopGazeDisplay, applyFrame, applyStyles, classifyFrame,
      classifyGo, distSq, clearIds, preColoredState, preColoredDom,
      bgWriteStep, setBg, setShadow, focusRadiusFor, transitionRadiusFor,
      FOCUS_RADIUS, TRANSITION_RADIUS, Function.update]
  refine ⟨h, rfl, ?_⟩
  rw [h]
  intro hcontra
  exact CssVal.noConfusion hcontra

/-- C1 (amended): `stop()` resets `background` and `box-shadow` of every
highlighted element to the empty string (a blanket reset); consequently,
for every sequence of frames over a document in which every element's
pre-mutation inline `background` and `box-shadow` were empty, `stop()`
restores the whole style store exactly to its pre-mutation state with no
leaked residue.  A non-empty pre-existing inline background is NOT
recovered (see the counterexample). -/
theorem stop_restores_when_pristine
    (frames : List (List WordRegion × ℚ × ℚ × ℚ)) (st0 : GazeDisplayState)
    (hEmpty : ∀ i, (st0.dom i).background = CssVal.empty ∧
      (st0.dom i).boxShadow = CssVal.empty) :
    (stopGazeDisplay (frames.foldl
      (fun s f => applyFrame f.1 f.2.1 f.2.2.1 f.2.2.2 s) st0)).dom =
      st0.dom := by
  obtain ⟨h1, h2⟩ := foldFrames_inv frames st0.dom hEmpty st0
    (fun i _ => rfl) (fun i => ⟨rfl, rfl⟩)
  funext i
  show clearIds
    (frames.foldl (fun s f => applyFrame f.1 f.2.1 f.2.2.1 f.2.2.2 s)
      st0).dom
    (frames.foldl (fun s f => applyFrame f.1 f.2.1 f.2.2.1 f.2.2.2 s)
      st0).highlightedWords i = st0.dom i
  by_cases hmem : i ∈ (frames.foldl
      (fun s f => applyFrame f.1 f.2.1 f.2.2.1 f.2.2.2 s)
      st0).highlightedWords
  · have hf := h2 i
    have he := hEmpty i
    apply Elem.ext
    · simp [clearIds, hmem, he.1.symm]
    · simp [clearIds, hmem, he.2.symm]
    · simp [clearIds, hmem, hf.1]
    · simp [clearIds, hmem, hf.2]
  · simp only [clearIds, if_neg hmem]
    exact h1 i hmem

/-- Witness for C1 (amended): one frame over an all-pristine document,
then `stop()`, leaves the style store exactly as it started. -/
theorem stop_restores_when_pristine_witness :
    (stopGazeDisplay
      ([([⟨0, 0, 0⟩], (0 : ℚ), (0 : ℚ), (1 : ℚ))].foldl
        (fun s f => applyFrame f.1 f.2.1 f.2.2.1 f.2.2.2 s)
        ⟨false, 0, (0, 0), false, false, ⟨0, []⟩, none, false,
          fun _ => ⟨CssVal.empty, CssVal.empty, none, true⟩, ∅,
          none⟩)).dom =
      fun _ => ⟨CssVal.empty, CssVal.empty, none, true⟩ :=
  stop_restores_when_pristine [([⟨0, 0, 0⟩], (0 : ℚ), (0 : ℚ), (1 : ℚ))]
    ⟨false, 0, (0, 0), false, false, ⟨0, []⟩, none, false,
      fun _ => ⟨CssVal.empty, CssVal.empty, none, true⟩, ∅, none⟩
    (fun _ => ⟨rfl, rfl⟩)

/-- Helper: clearing preserves `writable` everywhere. -/
theorem clearIds_writable (d : Dom) (s : Finset ℕ) (i : ℕ) :
    (clearIds d s i).writable = (d i).writable := by
  unfold clearIds
  by_cases hmem : i ∈ s <;> simp [hmem]

/-- Helper: when every element's style mutation succeeds, a fallible
highlight-writing loop agrees with the pure one. -/
theorem foldlM_bgWriteStepE_ok (v : Dom → WordRegion × ℚ → CssVal)
    (l : List (WordRegion × ℚ)) (init : Dom × Finset ℕ)
    (h : ∀ i, (init.1 i).writable = true) :
    l.foldlM (bgWriteStepE v) init =
      Except.ok (l.foldl (bgWriteStep v) init) := by
  induction l generalizing init with
  | nil => rfl
  | cons e l ih =>
      rw [List.foldlM_cons, List.foldl_cons]
      have hstep : bgWriteStepE v init e = Except.ok (bgWriteStep v init e) := by
        unfold bgWriteStepE bgWriteStep setBgE
        rw [if_pos (h e.1.id)]
        rfl
      rw [hstep]
      have hnext : ∀ i, ((bgWriteStep v init e).1 i).writable = true := by
        intro i
        unfold bgWriteStep
        rw [(setBg_fields init.1 e.1.id i (v init.1 e)).2]
        exact h i
      have := ih (bgWriteStep v init e) hnext
      simpa using this


/-- Helper: binding a ready `Except.ok` value. -/
theorem exceptBind_ok {α β : Type} (x : α) (f : α → Except Unit β) :
    (Except.ok x >>= f : Except Unit β) = f x := rfl

/-- Helper: binding a pure value in `Except`. -/
theorem exceptPure_bind {α β : Type} (x : α) (f : α → Except Unit β) :
    (pure x >>= f : Except Unit β) = f x := rfl

/-- Helper: when every element's style mutation succeeds, the fallible
steps 5-7 agree with the pure ones. -/
theorem applyStylesE_ok (c : ClassifyAcc) (fR tR : ℚ) (d : Dom)
    (h : ∀ i, (d i).writable = true) :
    applyStylesE c fR tR d = Except.ok (applyStyles c fR tR d) := by
  have h5 := foldlM_bgWriteStepE_ok hiVal c.hi (d, ∅) h
  unfold applyStylesE applyStyles
  rw [h5, exceptBind_ok]
  generalize hS5 : c.hi.foldl (bgWriteStep hiVal) (d, ∅) = S5
  have h5w : ∀ i, (S5.1 i).writable = true := by
    intro i
    rw [← hS5, (foldl_bgWriteStep_fields hiVal c.hi (d, ∅) i).2]
    exact h i
  cases hc : c.closest with
  | none =>
      dsimp only
      rw [exceptPure_bind,
        foldlM_bgWriteStepE_ok (transVal fR tR) c.trans (S5.1, S5.2) h5w,
        exceptBind_ok]
      rfl
  | some p =>
      obtain ⟨w, dd⟩ := p
      dsimp only
      have hbg : setBgE S5.1 w.id
          (.hl (contrastingHighlight (S5.1 w.id).color true).bg) =
          Except.ok (setBg S5.1 w.id
            (.hl (contrastingHighlight (S5.1 w.id).color true).bg)) := by
        unfold setBgE
        rw [if_pos (h5w w.id)]
      rw [hbg, exceptBind_ok]
      have hbw : ∀ i, ((setBg S5.1 w.id
          (.hl (contrastingHighlight (S5.1 w.id).color true).bg))
            i).writable = true := by
        intro i
        rw [(setBg_fields S5.1 w.id i _).2]
        exact h5w i
      have hsh : setShadowE
          (setBg S5.1 w.id
            (.hl (contrastingHighlight (S5.1 w.id).color true).bg)) w.id
          (.shadow (contrastingHighlight (S5.1 w.id).color true).underline) =
          Except.ok (setShadow
            (setBg S5.1 w.id
              (.hl (contrastingHighlight (S5.1 w.id).color true).bg)) w.id
            (.shadow
              (contrastingHighlight (S5.1 w.id).color true).underline)) := by
        unfold setShadowE
        rw [if_pos (hbw w.id)]
      rw [hsh, exceptBind_ok, exceptPure_bind]
      have h6w : ∀ i, ((setShadow
          (setBg S5.1 w.id
            (.hl (contrastingHighlight (S5.1 w.id).color true).bg)) w.id
          (.shadow (contrastingHighlight (S5.1 w.id).color true).underline))
            i).writable = true := by
        intro i
        rw [(setShadow_fields _ w.id i _).2]
        exact hbw i
      rw [foldlM_bgWriteStepE_ok (transVal fR tR) c.trans _ h6w,
        exceptBind_ok]
      rfl

/-- Helper: binding a ready `Except.error`. -/
theorem exceptBind_error {α β : Type} (f : α → Except Unit β) :
    (Except.error () >>= f : Except Unit β) = Except.error () := rfl

/-- Helper: mapping over a ready `Except.error`. -/
theorem exceptMap_error {α β : Type} (f : α → β) :
    ((Except.error () : Except Unit α).map f) = Except.error () := rfl

/-- C7 (amended): `applyFrame` contains no exception handling; whenever
every per-element style mutation succeeds — which is the DOM situation,
where inline style assignment is total even on detached elements — the
frame completes without propagating an exception and computes exactly the
pure frame; but there is no per-element catch, so a failing mutation
aborts the frame and propagates (see the counterexample). -/
theorem applyFrameE_ok (cache : List WordRegion) (gx gy m : ℚ)
    (st : GazeDisplayState) (hW : ∀ i, (st.dom i).writable = true) :
    applyFrameE cache gx gy m st =
      Except.ok (applyFrame cache gx gy m st) := by
  unfold applyFrameE applyFrame
  have hclear : clearIdsE st.dom st.highlightedWords =
      Except.ok (clearIds st.dom st.highlightedWords) := by
    unfold clearIdsE
    rw [if_pos (fun i _ => hW i)]
  rw [hclear, exceptBind_ok]
  have hcw : ∀ i, (clearIds st.dom st.highlightedWords i).writable = true := by
    intro i
    rw [clearIds_writable]
    exact hW i
  rw [applyStylesE_ok _ _ _ _ hcw, exceptBind_ok]
  rfl

/-- A document in which element 0's style mutations fail (the
specification's hypothesized failure mode). -/
def unwritableDom : Dom := fun _ => ⟨CssVal.empty, CssVal.empty, none, false⟩

/-- A running renderer state over `unwritableDom` with nothing tracked. -/
def unwritableState : GazeDisplayState :=
  ⟨true, 1, (0, 0), true, true, ⟨0, []⟩, none, false, unwritableDom, ∅, none⟩

/-- Counterexample to C7 as stated: with one cached region whose element's
style mutation fails, the frame does not catch and skip that element — the
failure propagates out of `applyFrame` and aborts the frame. -/
theorem applyFrameE_propagates_failure :
    applyFrameE [⟨0, 0, 0⟩] 0 0 1 unwritableState = Except.error () := by
  norm_num [applyFrameE, applyStylesE, classifyFrame, classifyGo, distSq,
    clearIdsE, clearIds, bgWriteStepE, setBgE, unwritableState,
    unwritableDom, focusRadiusFor, transitionRadiusFor, FOCUS_RADIUS,
    TRANSITION_RADIUS, exceptBind_ok, exceptPure_bind, exceptBind_error,
    exceptMap_error, List.foldlM_cons, List.foldlM_nil]

/-- Witness for C7 (amended): a frame over an all-writable document
completes and agrees with the pure frame. -/
theorem applyFrameE_ok_witness :
    applyFrameE [⟨0, 0, 0⟩] 0 0 1
      ⟨true, 1, (0, 0), true, true, ⟨0, []⟩, none, false,
        fun _ => ⟨CssVal.empty, CssVal.empty, none, true⟩, ∅, none⟩ =
      Except.ok (applyFrame [⟨0, 0, 0⟩] 0 0 1
        ⟨true, 1, (0, 0), true, true, ⟨0, []⟩, none, false,
          fun _ => ⟨CssVal.empty, CssVal.empty, none, true⟩, ∅, none⟩) :=
  applyFrameE_ok [⟨0, 0, 0⟩] 0 0 1
    ⟨true, 1, (0, 0), true, true, ⟨0, []⟩, none, false,
      fun _ => ⟨CssVal.empty, CssVal.empty, none, true⟩, ∅, none⟩
    (fun _ => rfl)

/-- A document with a single visible one-word text node ("hello", parent
rect 100×20 at the origin, the wrapper span laid out at 50×20): K = 1
visible text-bearing element, no pre-colored marker. -/
def singleWordDoc : List DNode :=
  [.textN ['h', 'e', 'l', 'l', 'o'] ⟨0, 0, 100, 20⟩ false [⟨0, 0, 50, 20⟩]]

/-- C3 (code bug): on a document with exactly K = 1 visible text-bearing
element and no pre-colored marker, a fresh discovery pass produces TWO
cache entries for the one wrapped word — the single-run branch of the
wrapping loop pushes the new span immediately (gaze-display.ts 226) and
the final sweep of all `span.wit-word` elements pushes the same span again
(gaze-display.ts 254).  Re-running discovery on the unchanged document
takes the reuse branch and yields 1 entry, so the rebuild is not even
idempotent in count (2 then 1), contradicting P6's "exactly K". -/
theorem rebuildWordCache_duplicates_single_word :
    (rebuildWordCache 800 singleWordDoc 0).1 =
      [⟨0, 25, 10⟩, ⟨0, 25, 10⟩] ∧
    (rebuildWordCache 800 singleWordDoc 0).1.length = 2 ∧
    (rebuildWordCache 800 (rebuildWordCache 800 singleWordDoc 0).2.1
      (rebuildWordCache 800 singleWordDoc 0).2.2).1.length = 1 := by
  norm_num +decide [singleWordDoc, rebuildWordCache, hasColoredSpan,
    hasWordSpan, sweepWords, sweepColored, wrapDoc, wrapNode, eligibleText,
    trimNonempty, chunkRuns, wsRun, buildFrag, visibleBand, Rect.cx,
    Rect.cy, Rect.bottom, List.filterMap_cons, List.filterMap_nil]

/-- Helper: `textContent` of a cons. -/
theorem textContent_cons (n : DNode) (l : List DNode) :
    textContent (n :: l) = n.text ++ textContent l := rfl

/-- Helper: `textContent` distributes over append. -/
theorem textContent_append (l1 l2 : List DNode) :
    textContent (l1 ++ l2) = textContent l1 ++ textContent l2 := by
  induction l1 with
  | nil => rfl
  | cons n l ih =>
      rw [List.cons_append, textContent_cons, textContent_cons, ih,
        List.append_assoc]

/-- Helper: the token runs of a string concatenate back to the string: the
regex `/\S+|\s+/g` partitions the characters. -/
theorem chunkRuns_flatten (l : List Char) : (chunkRuns l).flatten = l := by
  induction l with
  | nil => rfl
  | cons c cs ih =>
      rw [chunkRuns]
      cases hr : chunkRuns cs with
      | nil =>
          rw [hr] at ih
          simp at ih
          simp [ih]
      | cons r rs =>
          cases r with
          | nil =>
              rw [hr] at ih
              simp only [List.flatten_cons, List.nil_append] at ih
              simp [List.flatten_cons, ih]
          | cons d r0 =>
              rw [hr] at ih
              dsimp only
              by_cases hcd : c.isWhitespace = d.isWhitespace
              · rw [if_pos hcd]
                simp only [List.flatten_cons] at ih ⊢
                simp [ih]
              · rw [if_neg hcd]
                simp only [List.flatten_cons] at ih ⊢
                simp [ih]

/-- Helper: the fragment built for a token list carries exactly the
concatenated tokens as text. -/
theorem buildFrag_text (pr : Rect) (ex : Bool) (parts : List (List Char))
    (rects : List Rect) (nid : ℕ) :
    textContent (buildFrag pr ex parts rects nid).1 = parts.flatten := by
  induction parts generalizing rects nid with
  | nil => rfl
  | cons p ps ih =>
      rw [buildFrag]
      by_cases hws : wsRun p
      · rw [if_pos hws]
        rw [textContent_cons, List.flatten_cons, ih]
        rfl
      · rw [if_neg hws]
        rw [textContent_cons, List.flatten_cons, ih]
        rfl

/-- Helper: `textContent` of a singleton. -/
theorem textContent_singleton (k : DNode) : textContent [k] = k.text := by
  rw [textContent_cons]
  exact List.append_nil k.text

/-- Helper: wrapping one node never changes its text content. -/
theorem wrapNode_text (innerHeight : ℚ) (n : DNode) (nid : ℕ) :
    textContent (wrapNode innerHeight n nid).1 = n.text := by
  unfold wrapNode
  by_cases he : eligibleText innerHeight n
  · rw [if_pos he]
    cases n with
    | coloredN i t r => exact textContent_singleton _
    | wordN i t r => exact textContent_singleton _
    | textN t pr ex rects =>
        dsimp only
        by_cases hlen : (chunkRuns t).length ≤ 1
        · rw [if_pos hlen]
          by_cases htrim : trimNonempty t
          · rw [if_pos htrim]
            exact textContent_singleton _
          · rw [if_neg htrim]
            exact textContent_singleton _
        · rw [if_neg hlen]
          dsimp only
          rw [buildFrag_text, chunkRuns_flatten]
          rfl
  · rw [if_neg he]
    exact textContent_singleton _

/-- Helper: the wrapping pass never changes the document's text content. -/
theorem wrapDoc_text (innerHeight : ℚ) (doc : List DNode) (nid : ℕ) :
    textContent (wrapDoc innerHeight doc nid).1 = textContent doc := by
  induction doc generalizing nid with
  | nil => rfl
  | cons n rest ih =>
      rw [wrapDoc]
      dsimp only
      rw [textContent_append, wrapNode_text, textContent_cons, ih]

/-- Helper: `rebuildWordCache` never changes the document's text content. -/
theorem rebuildWordCache_text (innerHeight : ℚ) (doc : List DNode) (nid : ℕ) :
    textContent (rebuildWordCache innerHeight doc nid).2.1 =
      textContent doc := by
  unfold rebuildWordCache
  by_cases h1 : hasColoredSpan doc
  · rw [if_pos h1]
  · rw [if_neg h1]
    by_cases h2 : (hasWordSpan doc &&
        !(sweepWords innerHeight doc).isEmpty) = true
    · rw [if_pos h2]
    · rw [if_neg h2]
      exact wrapDoc_text innerHeight doc nid

/-- Helper: unwrapping never changes the document's text content — every
`span.wit-word` is replaced by a text node with the same text. -/
theorem unwrapWords_text (doc : List DNode) :
    textContent (unwrapWords doc) = textContent doc := by
  induction doc with
  | nil => rfl
  | cons n rest ih =>
      cases n <;>
        · show DNode.text _ ++ textContent (unwrapWords rest) = _
          rw [ih]
          rfl

/-- Helper: unfolding `normalizeNodes` over a leading colored span. -/
theorem normalizeNodes_cons_colored (i : ℕ) (t : List Char) (r : Rect)
    (rest : List DNode) :
    normalizeNodes (.coloredN i t r :: rest) =
      .coloredN i t r :: normalizeNodes rest := rfl

/-- Helper: unfolding `normalizeNodes` over a leading word span. -/
theorem normalizeNodes_cons_word (i : ℕ) (t : List Char) (r : Rect)
    (rest : List DNode) :
    normalizeNodes (.wordN i t r :: rest) =
      .wordN i t r :: normalizeNodes rest := rfl

/-- Helper: `coloredOf` keeps a leading colored span. -/
theorem coloredOf_cons_colored (i : ℕ) (t : List Char) (r : Rect)
    (l : List DNode) :
    coloredOf (.coloredN i t r :: l) = .coloredN i t r :: coloredOf l := by
  simp [coloredOf, List.filter_cons]

/-- Helper: `coloredOf` drops a leading word span. -/
theorem coloredOf_cons_word (i : ℕ) (t : List Char) (r : Rect)
    (l : List DNode) :
    coloredOf (.wordN i t r :: l) = coloredOf l := by
  simp [coloredOf, List.filter_cons]

/-- Helper: `coloredOf` drops a leading text node. -/
theorem coloredOf_cons_text (t : List Char) (pr : Rect) (ex : Bool)
    (wr : List Rect) (l : List DNode) :
    coloredOf (.textN t pr ex wr :: l) = coloredOf l := by
  simp [coloredOf, List.filter_cons]

/-- Helper: normalizing adjacent text nodes never changes the document's
text content. -/
theorem normalizeNodes_text (doc : List DNode) :
    textContent (normalizeNodes doc) = textContent doc := by
  induction doc with
  | nil => rfl
  | cons n rest ih =>
      rw [textContent_cons, ← ih]
      cases n with
      | coloredN i t r =>
          rw [normalizeNodes_cons_colored, textContent_cons]
      | wordN i t r =>
          rw [normalizeNodes_cons_word, textContent_cons]
      | textN t1 pr ex wr =>
          rw [normalizeNodes]
          cases hr : normalizeNodes rest with
          | nil =>
              rw [textContent_cons]
          | cons m rest2 =>
              cases m with
              | textN t2 pr2 ex2 wr2 =>
                  dsimp only
                  rw [textContent_cons, textContent_cons]
                  show (t1 ++ t2) ++ textContent rest2 =
                    t1 ++ (t2 ++ textContent rest2)
                  rw [List.append_assoc]
              | coloredN i2 t2 r2 =>
                  dsimp only
                  rw [textContent_cons]
              | wordN i2 t2 r2 =>
                  dsimp only
                  rw [textContent_cons]

/-- Helper: unwrapping leaves the colorizer's `span.wit-colored` elements
untouched, in order. -/
theorem unwrapWords_colored (doc : List DNode) :
    coloredOf (unwrapWords doc) = coloredOf doc := by
  induction doc with
  | nil => rfl
  | cons n rest ih =>
      cases n with
      | coloredN i t r =>
          show coloredOf (.coloredN i t r :: unwrapWords rest) = _
          rw [coloredOf_cons_colored, coloredOf_cons_colored, ih]
      | wordN i t r =>
          show coloredOf (.textN t ⟨0, 0, 0, 0⟩ false [] :: unwrapWords rest) = _
          rw [coloredOf_cons_text, coloredOf_cons_word, ih]
      | textN t pr ex wr =>
          show coloredOf (.textN t pr ex wr :: unwrapWords rest) = _
          rw [coloredOf_cons_text, coloredOf_cons_text, ih]

/-- Helper: normalizing leaves the colorizer's `span.wit-colored` elements
untouched, in order. -/
theorem normalizeNodes_colored (doc : List DNode) :
    coloredOf (normalizeNodes doc) = coloredOf doc := by
  induction doc with
  | nil => rfl
  | cons n rest ih =>
      cases n with
      | coloredN i t r =>
          rw [normalizeNodes_cons_colored, coloredOf_cons_colored,
            coloredOf_cons_colored, ih]
      | wordN i t r =>
          rw [normalizeNodes_cons_word, coloredOf_cons_word,
            coloredOf_cons_word, ih]
      | textN t1 pr ex wr =>
          rw [normalizeNodes, coloredOf_cons_text, ← ih]
          cases hr : normalizeNodes rest with
          | nil => rfl
          | cons m rest2 =>
              cases m with
              | textN t2 pr2 ex2 wr2 =>
                  dsimp only
                  rw [coloredOf_cons_text, coloredOf_cons_text]
              | coloredN i2 t2 r2 =>
                  dsimp only
                  rw [coloredOf_cons_text]
              | wordN i2 t2 r2 =>
                  dsimp only
                  rw [coloredOf_cons_text]

/-- C8: teardown round-trip.  The wrapping pass of `rebuildWordCache`
never changes the document's text content; unwrapping every `wit-word`
marker span back into a plain text node and normalizing adjacent text
nodes (as `destroyGazeDisplay` does) restores exactly the pre-wrap text
content; elements bearing the colorizer's pre-colored marker survive
destroy untouched and in order; and nodes the walker does not accept are
never rewritten at all. -/
theorem teardown_round_trip :
    (∀ (innerHeight : ℚ) (doc : List DNode) (nid : ℕ),
      textContent (rebuildWordCache innerHeight doc nid).2.1 =
        textContent doc) ∧
    (∀ (innerHeight : ℚ) (doc : List DNode) (nid : ℕ),
      textContent (normalizeNodes (unwrapWords
        (rebuildWordCache innerHeight doc nid).2.1)) = textContent doc) ∧
    (∀ doc : List DNode,
      coloredOf (normalizeNodes (unwrapWords doc)) = coloredOf doc) ∧
    (∀ (innerHeight : ℚ) (n : DNode) (nid : ℕ),
      eligibleText innerHeight n = false →
      wrapNode innerHeight n nid = ([n], [], nid)) := by
  refine ⟨rebuildWordCache_text, ?_, ?_, ?_⟩
  · intro innerHeight doc nid
    rw [normalizeNodes_text, unwrapWords_text, rebuildWordCache_text]
  · intro doc
    rw [normalizeNodes_colored, unwrapWords_colored]
  · intro innerHeight n nid h
    unfold wrapNode
    rw [h]
    rfl

/-- Witness for C8: an ineligible node (a colored span) passes through the
wrapping loop untouched. -/
theorem teardown_round_trip_witness :
    wrapNode 800 (.coloredN 0 ['x'] ⟨0, 0, 0, 0⟩) 5 =
      ([.coloredN 0 ['x'] ⟨0, 0, 0, 0⟩], [], 5) :=
  teardown_round_trip.2.2.2 800 (.coloredN 0 ['x'] ⟨0, 0, 0, 0⟩) 5 rfl
